import Mathlib

/-!
Input-method relay (`src/core/seat/input-method-relay.cpp`)

A shallow embedding of the relay that brokers between text-input clients and
the input-method service, followed by theorems about it.

Conventions of the embedding.

* A pointer to an object is the object's record; the record carries the
  address (`addr`) that pointer comparisons look at.  A null pointer is `none`.
* Every `wlr_*_send_*` call of the source is recorded as one `Msg` in the
  trace a handler returns next to the new relay state.
* A failed `assert` aborts the handler: the handler returns `none`.
* C `int` values are `Int`, `uint32_t` values are `Nat`; the arithmetic of
  `update_geometry` is taken without overflow.
-/

namespace wf

/-! ## Data model -/

/-- A `wlr_surface`: its address and the client connection owning its resource
(`wl_resource_get_client(surface->resource)`). Both are fixed for the lifetime
of the surface. -/
structure wlr_surface where
  addr : Nat
  client : Nat
deriving DecidableEq

/-- A `wlr_box`. -/
structure wlr_box where
  x : Int
  y : Int
  width : Int
  height : Int
deriving DecidableEq

/-- The `surrounding` part of a text-input state: a nullable string and two offsets. -/
structure surrounding_t where
  text : Option String
  cursor : Nat
  anchor : Nat
deriving DecidableEq

/-- The `content_type` part of a text-input state. -/
structure content_type_t where
  hint : Nat
  purpose : Nat
deriving DecidableEq

/-- The committed state (`current`) of a `wlr_text_input_v3`. -/
structure wlr_text_input_v3_state where
  surrounding : surrounding_t
  text_change_cause : Nat
  content_type : content_type_t
  features : Nat
  cursor_rectangle : wlr_box
deriving DecidableEq

/-- A `wlr_text_input_v3` object as the relay sees it. -/
structure wlr_text_input_v3 where
  addr : Nat
  client : Nat
  focused_surface : Option wlr_surface
  current : wlr_text_input_v3_state
  current_enabled : Bool
deriving DecidableEq

/-- The relay's wrapper `wf::text_input`: the wlroots object and the surface
kept at hand while no input method is there. -/
structure text_input where
  input : wlr_text_input_v3
  pending_focused_surface : Option wlr_surface
deriving DecidableEq

/-- The `preedit` part of an input-method state. -/
structure preedit_t where
  text : Option String
  cursor_begin : Int
  cursor_end : Int
deriving DecidableEq

/-- The `delete_` part of an input-method state. -/
structure delete_t where
  before_length : Nat
  after_length : Nat
deriving DecidableEq

/-- The committed state (`current`) of a `wlr_input_method_v2`. -/
structure wlr_input_method_v2_state where
  preedit : preedit_t
  commit_text : Option String
  delete_ : delete_t
deriving DecidableEq

/-- A `wlr_input_method_keyboard_grab_v2`: address, owning client connection and
the keyboard it is currently bound to. -/
structure wlr_input_method_keyboard_grab_v2 where
  addr : Nat
  client : Nat
  keyboard : Option Nat
deriving DecidableEq

/-- A `wlr_input_method_v2` object as the relay sees it. -/
structure wlr_input_method_v2 where
  addr : Nat
  client : Nat
  current : wlr_input_method_v2_state
  keyboard_grab : Option wlr_input_method_keyboard_grab_v2
deriving DecidableEq

/-- A `wf::popup_surface`: the popup's address, the size of its committed
surface (`surface->surface->current`), whether it is mapped
(`priv->wsurface != nullptr`), its geometry and the offset of its root node. -/
structure popup_surface where
  addr : Nat
  surface_width : Int
  surface_height : Int
  mapped : Bool
  geometry : wlr_box
  offset : Int × Int
deriving DecidableEq

/-- The state of `wf::input_method_relay`. -/
structure input_method_relay where
  text_inputs : List text_input
  input_method : Option wlr_input_method_v2
  keyboard_grab : Option wlr_input_method_keyboard_grab_v2
  popup_surfaces : List popup_surface
deriving DecidableEq

/-- One recorded call into wlroots or the scene graph. The first argument of
every constructor is the address of the object the call is made on, which is
the party the protocol message goes to. -/
inductive Msg where
  | input_method_send_unavailable (im : Nat)
  | input_method_send_activate (im : Nat)
  | input_method_send_deactivate (im : Nat)
  | input_method_send_surrounding_text (im : Nat) (text : Option String) (cursor anchor : Nat)
  | input_method_send_text_change_cause (im : Nat) (cause : Nat)
  | input_method_send_content_type (im : Nat) (hint purpose : Nat)
  | input_method_send_done (im : Nat)
  | text_input_send_enter (ti : Nat) (surface : wlr_surface)
  | text_input_send_leave (ti : Nat)
  | text_input_send_preedit_string (ti : Nat) (text : String) (cursor_begin cursor_end : Int)
  | text_input_send_commit_string (ti : Nat) (text : String)
  | text_input_send_delete_surrounding_text (ti : Nat) (before_length after_length : Nat)
  | text_input_send_done (ti : Nat)
  | keyboard_grab_set_keyboard (grab : Nat) (kbd : Nat)
  | keyboard_grab_send_key (grab : Nat) (time key state : Nat)
  | keyboard_grab_send_modifiers (grab : Nat) (modifiers : Nat)
  | damage (popup : Nat) (region : wlr_box)
  | scene_update (popup : Nat)
deriving DecidableEq

/-- The relay right after construction: nothing connected. -/
def input_method_relay.empty : input_method_relay :=
  { text_inputs := [], input_method := none, keyboard_grab := none, popup_surfaces := [] }

/-! ## wlroots calls that change the objects the relay reads -/

/-- Modelled from the spec: `wlr_text_input_v3_send_enter` is a wlroots call whose
body is not part of the source. The spec's "send enter and move to
Focused(surface)": the surface becomes the text input's `focused_surface` and
one `enter` goes to the client. -/
def wlr_text_input_v3_send_enter (input : wlr_text_input_v3) (surface : wlr_surface) :
    wlr_text_input_v3 × List Msg :=
  ({ input with focused_surface := some surface }, [Msg.text_input_send_enter input.addr surface])

/-- Modelled from the spec: `wlr_text_input_v3_send_leave` is a wlroots call whose
body is not part of the source. The spec's "send leave" that ends the `Focused`
state: one `leave` goes to the client and `focused_surface` becomes null. -/
def wlr_text_input_v3_send_leave (input : wlr_text_input_v3) : wlr_text_input_v3 × List Msg :=
  ({ input with focused_surface := none }, [Msg.text_input_send_leave input.addr])

/-! ## `wf::text_input` and the lookups of the relay -/

/-- The method `text_input::set_pending_focused_surface`; the destroy listener it
connects or disconnects has no state of its own here. -/
def text_input.set_pending_focused_surface (ti : text_input) (surface : Option wlr_surface) :
    text_input :=
  { ti with pending_focused_surface := surface }

/-- The `std::find_if` of the two lookups: the position of the first element
satisfying `p` together with that element, or `none` for `end()`. -/
def find_if (p : text_input → Bool) : List text_input → Option (Nat × text_input)
  | [] => none
  | t :: ts =>
    if p t then some (0, t)
    else
      match find_if p ts with
      | some (i, x) => some (i + 1, x)
      | none => none

/-- The lookup `input_method_relay::find_focusable_text_input`. -/
def input_method_relay.find_focusable_text_input (r : input_method_relay) :
    Option (Nat × text_input) :=
  find_if (fun t => t.pending_focused_surface.isSome) r.text_inputs

/-- The lookup `input_method_relay::find_focused_text_input`. -/
def input_method_relay.find_focused_text_input (r : input_method_relay) :
    Option (Nat × text_input) :=
  find_if (fun t => t.input.focused_surface.isSome) r.text_inputs

/-! ## Handlers of the relay -/

/-- The callback `on_text_input_new`: a wrapper with no pending surface is appended. -/
def input_method_relay.on_text_input_new (r : input_method_relay) (wlr_text_input : wlr_text_input_v3) :
    input_method_relay × List Msg :=
  ({ r with text_inputs := r.text_inputs ++ [{ input := wlr_text_input, pending_focused_surface := none }] }, [])

/-- The callback `on_input_method_new`. -/
def input_method_relay.on_input_method_new (r : input_method_relay)
    (new_input_method : wlr_input_method_v2) : input_method_relay × List Msg :=
  match r.input_method with
  | some _ => (r, [Msg.input_method_send_unavailable new_input_method.addr])
  | none =>
    let r1 := { r with input_method := some new_input_method }
    match r1.find_focusable_text_input with
    | some (i, text_input) =>
      match text_input.pending_focused_surface with
      | some surface =>
        let (input, msgs) := wlr_text_input_v3_send_enter text_input.input surface
        let ti := ({ text_input with input := input }).set_pending_focused_surface none
        ({ r1 with text_inputs := r1.text_inputs.set i ti }, msgs)
      | none => (r1, [])
    | none => (r1, [])

/-- A run of service-connect events, each handled by `on_input_method_new`; the
traces are concatenated in order. -/
def connect_all (r : input_method_relay) : List wlr_input_method_v2 → input_method_relay × List Msg
  | [] => (r, [])
  | im :: ims =>
    let (r1, m1) := r.on_input_method_new im
    let (r2, m2) := connect_all r1 ims
    (r2, m1 ++ m2)

/-- The callback `on_input_method_commit`. The payload of the event is the input
method the listener is connected to; the `assert` at the top compares it with the
installed one. -/
def input_method_relay.on_input_method_commit (r : input_method_relay)
    (evt_input_method : wlr_input_method_v2) : Option (input_method_relay × List Msg) :=
  if r.input_method ≠ some evt_input_method then none
  else
    match r.find_focused_text_input with
    | none => some (r, [])
    | some (_, text_input) =>
      let current := evt_input_method.current
      let m1 :=
        match current.preedit.text with
        | some text =>
          [Msg.text_input_send_preedit_string text_input.input.addr text
            current.preedit.cursor_begin current.preedit.cursor_end]
        | none => []
      let m2 :=
        match current.commit_text with
        | some text => [Msg.text_input_send_commit_string text_input.input.addr text]
        | none => []
      let m3 :=
        if current.delete_.before_length ≠ 0 ∨ current.delete_.after_length ≠ 0 then
          [Msg.text_input_send_delete_surrounding_text text_input.input.addr
            current.delete_.before_length current.delete_.after_length]
        else []
      some (r, m1 ++ m2 ++ m3 ++ [Msg.text_input_send_done text_input.input.addr])

/-- The callback `on_input_method_destroy`. -/
def input_method_relay.on_input_method_destroy (r : input_method_relay)
    (evt_input_method : wlr_input_method_v2) : Option (input_method_relay × List Msg) :=
  if r.input_method ≠ some evt_input_method then none
  else
    let r1 := { r with input_method := none, keyboard_grab := none }
    match r1.find_focused_text_input with
    | none => some (r1, [])
    | some (i, text_input) =>
      let ti := text_input.set_pending_focused_surface text_input.input.focused_surface
      let (input, msgs) := wlr_text_input_v3_send_leave ti.input
      some ({ r1 with text_inputs := r1.text_inputs.set i { ti with input := input } }, msgs)

/-- The callback `on_grab_keyboard`. -/
def input_method_relay.on_grab_keyboard (r : input_method_relay)
    (data : wlr_input_method_keyboard_grab_v2) : input_method_relay × List Msg :=
  match r.keyboard_grab with
  | some _ => (r, [])
  | none => ({ r with keyboard_grab := some data }, [])

/-- The callback `on_grab_keyboard_destroy`. -/
def input_method_relay.on_grab_keyboard_destroy (r : input_method_relay) :
    input_method_relay × List Msg :=
  ({ r with keyboard_grab := none }, [])

/-- The callback `on_new_popup_surface`. -/
def input_method_relay.on_new_popup_surface (r : input_method_relay) (popup : popup_surface) :
    input_method_relay × List Msg :=
  ({ r with popup_surfaces := r.popup_surfaces ++ [popup] }, [])

/-- The method `input_method_relay::send_im_state`; the callers have checked that an
input method is installed and pass it along. -/
def send_im_state (input_method : wlr_input_method_v2) (input : wlr_text_input_v3) : List Msg :=
  [ Msg.input_method_send_surrounding_text input_method.addr input.current.surrounding.text
      input.current.surrounding.cursor input.current.surrounding.anchor,
    Msg.input_method_send_text_change_cause input_method.addr input.current.text_change_cause,
    Msg.input_method_send_content_type input_method.addr input.current.content_type.hint
      input.current.content_type.purpose,
    Msg.input_method_send_done input_method.addr ]

/-- The method `input_method_relay::disable_text_input`; it only sends. -/
def disable_text_input (input_method : Option wlr_input_method_v2) (input : wlr_text_input_v3) :
    List Msg :=
  match input_method with
  | none => []
  | some im => Msg.input_method_send_deactivate im.addr :: send_im_state im input

/-- The method `input_method_relay::remove_text_input`: every wrapper of the given
wlroots object (same address) is erased, the others keep their order. -/
def input_method_relay.remove_text_input (r : input_method_relay) (input : wlr_text_input_v3) :
    input_method_relay :=
  { r with text_inputs := r.text_inputs.filter (fun inp => inp.input.addr != input.addr) }

/-- The method `input_method_relay::remove_popup_surface`. -/
def input_method_relay.remove_popup_surface (r : input_method_relay) (popup : popup_surface) :
    input_method_relay :=
  { r with popup_surfaces := r.popup_surfaces.filter (fun suf => suf.addr != popup.addr) }

/-! ## Keyboard forwarding -/

/-- A `wlr_keyboard`: its address, the owning client of the virtual keyboard behind
it (`wlr_input_device_get_virtual_keyboard`, null for a physical device) and its
modifier state. -/
structure wlr_keyboard where
  addr : Nat
  virtual_keyboard : Option Nat
  modifiers : Nat
deriving DecidableEq

/-- The method `input_method_relay::should_grab`. `none` stands for the null
dereference of `input_method` or of `input_method->keyboard_grab`. -/
def input_method_relay.should_grab (r : input_method_relay) (kbd : wlr_keyboard) : Option Bool :=
  match r.keyboard_grab with
  | none => some false
  | some _ =>
    match kbd.virtual_keyboard with
    | none => some true
    | some vk_client =>
      match r.input_method with
      | none => none
      | some im =>
        match im.keyboard_grab with
        | none => none
        | some g => some (!(vk_client == g.client))

/-- Modelled from the spec: `wlr_input_method_keyboard_grab_v2_set_keyboard` is a wlroots
call whose body is not part of the source. The spec's "bind the grab to
physical_keyboard": the grab is bound to the given keyboard. -/
def set_keyboard (g : wlr_input_method_keyboard_grab_v2) (kbd : wlr_keyboard) :
    wlr_input_method_keyboard_grab_v2 :=
  { g with keyboard := some kbd.addr }

/-- The method `input_method_relay::handle_key`. -/
def input_method_relay.handle_key (r : input_method_relay) (kbd : wlr_keyboard)
    (time key state : Nat) : Option (input_method_relay × List Msg × Bool) :=
  match r.should_grab kbd with
  | none => none
  | some false => some (r, [], false)
  | some true =>
    match r.keyboard_grab with
    | none => none
    | some g =>
      some ({ r with keyboard_grab := some (set_keyboard g kbd) },
        [Msg.keyboard_grab_set_keyboard g.addr kbd.addr,
         Msg.keyboard_grab_send_key g.addr time key state], true)

/-- The method `input_method_relay::handle_modifier`. -/
def input_method_relay.handle_modifier (r : input_method_relay) (kbd : wlr_keyboard) :
    Option (input_method_relay × List Msg × Bool) :=
  match r.should_grab kbd with
  | none => none
  | some false => some (r, [], false)
  | some true =>
    match r.keyboard_grab with
    | none => none
    | some g =>
      some ({ r with keyboard_grab := some (set_keyboard g kbd) },
        [Msg.keyboard_grab_set_keyboard g.addr kbd.addr,
         Msg.keyboard_grab_send_modifiers g.addr kbd.modifiers], true)

/-! ## Focus routing -/

/-- The tail of the loop body of `set_focus`: the text input is entered, or the
surface is kept pending, when the surface is non-null and of the same client. -/
def set_focus_enter (input_method : Option wlr_input_method_v2) (surface : Option wlr_surface)
    (ti : text_input) (sent : List Msg) : text_input × List Msg :=
  match surface with
  | none => (ti, sent)
  | some s =>
    if ti.input.client = s.client then
      match input_method with
      | some _ =>
        let (input, msgs) := wlr_text_input_v3_send_enter ti.input s
        ({ ti with input := input }, sent ++ msgs)
      | none => (ti.set_pending_focused_surface (some s), sent)
    else (ti, sent)

/-- The body of the loop of `set_focus` for one text input. `none` is the failure of
the `assert` in the pending branch; the `assert` of the second branch holds by the
branch condition. -/
def set_focus_body (input_method : Option wlr_input_method_v2) (surface : Option wlr_surface)
    (ti : text_input) : Option (text_input × List Msg) :=
  match ti.pending_focused_surface with
  | some pending =>
    if ti.input.focused_surface ≠ none then none
    else if surface ≠ some pending then
      some (set_focus_enter input_method surface (ti.set_pending_focused_surface none) [])
    else some (set_focus_enter input_method surface ti [])
  | none =>
    match ti.input.focused_surface with
    | some focused =>
      if surface ≠ some focused then
        let m1 := disable_text_input input_method ti.input
        let (input, m2) := wlr_text_input_v3_send_leave ti.input
        some (set_focus_enter input_method surface { ti with input := input } (m1 ++ m2))
      else some (ti, [])
    | none => some (set_focus_enter input_method surface ti [])

/-- The loop of `set_focus` over the collection, in order; the traces of the bodies
are concatenated. -/
def set_focus_loop (input_method : Option wlr_input_method_v2) (surface : Option wlr_surface) :
    List text_input → Option (List text_input × List Msg)
  | [] => some ([], [])
  | t :: ts =>
    match set_focus_body input_method surface t with
    | none => none
    | some (t1, m) =>
      match set_focus_loop input_method surface ts with
      | none => none
      | some (ts1, ms) => some (t1 :: ts1, m ++ ms)

/-- The method `input_method_relay::set_focus`. -/
def input_method_relay.set_focus (r : input_method_relay) (surface : Option wlr_surface) :
    Option (input_method_relay × List Msg) :=
  match set_focus_loop r.input_method surface r.text_inputs with
  | none => none
  | some (tis, msgs) => some ({ r with text_inputs := tis }, msgs)

/-! ## Popup surfaces -/

/-- Modelled from the spec: the flag `WLR_TEXT_INPUT_V3_FEATURE_CURSOR_RECTANGLE` comes
from a wlroots header that is not part of the source; it is the "cursor rectangle"
feature flag of the spec, the third bit of `features`. -/
def WLR_TEXT_INPUT_V3_FEATURE_CURSOR_RECTANGLE : Nat := 4

/-- The margins of a toplevel (`toplevel->toplevel()->current().margins`). -/
structure margins_t where
  left : Int
  right : Int
  top : Int
  bottom : Int
deriving DecidableEq

/-- What the compositor answers about the view of a surface when `update_geometry`
asks: the geometry of the toplevel, its margins, the xdg-surface geometry when the
surface is an xdg surface, and the layout geometry of the output of the view. -/
structure view_info where
  geometry : wlr_box
  margins : margins_t
  xdg_geometry : Option wlr_box
  output_geometry : wlr_box
deriving DecidableEq

/-- The method `popup_surface::update_geometry`. `damage()` is recorded with the
geometry the popup has at the time of the call. -/
def popup_surface.update_geometry (views : wlr_surface → view_info) (r : input_method_relay)
    (p : popup_surface) : popup_surface × List Msg :=
  match r.find_focused_text_input with
  | none => (p, [])
  | some (_, ti) =>
    if !p.mapped then (p, [])
    else
      match ti.input.focused_surface with
      | none => (p, [])
      | some wlr_surface =>
        let cursor_rect : Bool :=
          (ti.input.current.features &&& WLR_TEXT_INPUT_V3_FEATURE_CURSOR_RECTANGLE) != 0
        let cursor := ti.input.current.cursor_rectangle
        let x : Int := if cursor_rect then cursor.x else 0
        let y : Int := if cursor_rect then cursor.y + cursor.height else 0
        let view := views wlr_surface
        let g := view.geometry
        let margins := view.margins
        let x : Int := match view.xdg_geometry with
          | some geometry => x - geometry.x
          | none => x
        let y : Int := match view.xdg_geometry with
          | some geometry => y - geometry.y
          | none => y
        let d1 := Msg.damage p.addr p.geometry
        let x := x + (g.x + margins.left)
        let y := y + (g.y + margins.top)
        let width := p.surface_width
        let height := p.surface_height
        let g_output := view.output_geometry
        let x := max 0 (min x (g_output.width - width))
        let y : Int :=
          if y + height > g_output.height then
            if cursor_rect then y - height - cursor.height else y - height
          else y
        let y := max 0 y
        let geometry : wlr_box := { x := x, y := y, width := width, height := height }
        ({ p with offset := (x, y), geometry := geometry },
          [d1, Msg.damage p.addr geometry, Msg.scene_update p.addr])

/-- The method `popup_surface::map`. -/
def popup_surface.map (views : wlr_surface → view_info) (r : input_method_relay)
    (p : popup_surface) : popup_surface × List Msg :=
  match r.find_focused_text_input with
  | none => (p, [])
  | some _ =>
    let (p1, msgs) := popup_surface.update_geometry views r { p with mapped := true }
    (p1, msgs ++ [Msg.damage p1.addr p1.geometry])

/-- The method `popup_surface::unmap`. -/
def popup_surface.unmap (p : popup_surface) : popup_surface × List Msg :=
  ({ p with mapped := false }, [Msg.damage p.addr p.geometry])

/-- The loop `for (auto popup : relay->popup_surfaces) popup->update_geometry()`. -/
def update_popups (views : wlr_surface → view_info) (r : input_method_relay) :
    List popup_surface → List popup_surface × List Msg
  | [] => ([], [])
  | p :: ps =>
    let (p1, m) := popup_surface.update_geometry views r p
    let (ps1, ms) := update_popups views r ps
    (p1 :: ps1, m ++ ms)

/-! ## Handlers of a text input

The handlers belong to the wrapper whose `input` is the payload of the event (the
`assert` at the top of each); the argument `input` stands for both. -/

/-- The callback `on_text_input_enable`. -/
def input_method_relay.on_text_input_enable (r : input_method_relay) (input : wlr_text_input_v3) :
    input_method_relay × List Msg :=
  match r.input_method with
  | none => (r, [])
  | some im => (r, Msg.input_method_send_activate im.addr :: send_im_state im input)

/-- The callback `on_text_input_commit`. -/
def input_method_relay.on_text_input_commit (views : wlr_surface → view_info)
    (r : input_method_relay) (input : wlr_text_input_v3) : input_method_relay × List Msg :=
  if !input.current_enabled then (r, [])
  else
    match r.input_method with
    | none => (r, [])
    | some im =>
      let (popups, msgs) := update_popups views r r.popup_surfaces
      ({ r with popup_surfaces := popups }, msgs ++ send_im_state im input)

/-- The callback `on_text_input_disable`. -/
def input_method_relay.on_text_input_disable (r : input_method_relay) (input : wlr_text_input_v3) :
    input_method_relay × List Msg :=
  (r, disable_text_input r.input_method input)

/-- The callback `on_text_input_destroy`. -/
def input_method_relay.on_text_input_destroy (r : input_method_relay) (input : wlr_text_input_v3) :
    input_method_relay × List Msg :=
  let msgs := if input.current_enabled then disable_text_input r.input_method input else []
  let r1 := { r with text_inputs := r.text_inputs.map (fun (t : text_input) =>
    if t.input.addr = input.addr then t.set_pending_focused_surface none else t) }
  (r1.remove_text_input input, msgs)

/-- The callback `on_pending_focused_surface_destroy` of a text input. -/
def text_input.on_pending_focused_surface_destroy (ti : text_input) (surface : wlr_surface) :
    Option text_input :=
  if ti.pending_focused_surface ≠ some surface then none
  else some { ti with pending_focused_surface := none }

/-! ## Events

The relay reacts to events raised by wlroots and by the compositor core. A listener
that is not connected does not run: the listeners of the input method are connected
by `on_input_method_new` and disconnected by `on_input_method_destroy`, the one for
the destruction of the grab is connected by `on_grab_keyboard`. -/

/-- The state a text input or an input method starts with (zeroed by wlroots). -/
def wlr_text_input_v3_state.zero : wlr_text_input_v3_state :=
  { surrounding := { text := none, cursor := 0, anchor := 0 }, text_change_cause := 0,
    content_type := { hint := 0, purpose := 0 }, features := 0,
    cursor_rectangle := { x := 0, y := 0, width := 0, height := 0 } }

/-- The zeroed state of a fresh input method. -/
def wlr_input_method_v2_state.zero : wlr_input_method_v2_state :=
  { preedit := { text := none, cursor_begin := 0, cursor_end := 0 }, commit_text := none,
    delete_ := { before_length := 0, after_length := 0 } }

/-- Modelled from the spec: the client-side commit wlroots performs before it raises
`enable`, `commit` or `disable` is not part of the source. The text input at the
given address takes the committed snapshot and the enabled flag. -/
def wlr_text_input_commit (addr : Nat) (state : wlr_text_input_v3_state) (enabled : Bool)
    (tis : List text_input) : List text_input :=
  tis.map (fun (t : text_input) =>
    if t.input.addr = addr then
      { t with input := { t.input with current := state, current_enabled := enabled } }
    else t)

/-- Modelled from the spec: the handling of a grab request inside wlroots is not part of
the source. The input method keeps the grab it has ("original kept"), and takes the
new one when it has none. -/
def wlr_input_method_grab (im : wlr_input_method_v2)
    (grab : wlr_input_method_keyboard_grab_v2) : wlr_input_method_v2 :=
  match im.keyboard_grab with
  | some _ => im
  | none => { im with keyboard_grab := some grab }

/-- The events the relay reacts to. -/
inductive Event where
  | text_input_new (addr client : Nat)
  | text_input_enable (addr : Nat) (state : wlr_text_input_v3_state)
  | text_input_commit (addr : Nat) (state : wlr_text_input_v3_state) (views : wlr_surface → view_info)
  | text_input_disable (addr : Nat) (state : wlr_text_input_v3_state)
  | text_input_destroy (addr : Nat)
  | input_method_new (addr client : Nat)
  | input_method_commit (state : wlr_input_method_v2_state)
  | input_method_destroy
  | grab_keyboard (grab : wlr_input_method_keyboard_grab_v2)
  | grab_keyboard_destroy
  | set_focus (surface : Option wlr_surface)

/-- One event handled by the relay: the new state and the trace, or `none` when an
`assert` fails. An event whose listener is not connected, or whose text input is
not in the collection, changes nothing. -/
def step (r : input_method_relay) : Event → Option (input_method_relay × List Msg)
  | Event.text_input_new addr client =>
    some (r.on_text_input_new
      { addr := addr, client := client, focused_surface := none,
        current := wlr_text_input_v3_state.zero, current_enabled := false })
  | Event.text_input_enable addr state =>
    let r1 := { r with text_inputs := wlr_text_input_commit addr state true r.text_inputs }
    match find_if (fun t => t.input.addr == addr) r1.text_inputs with
    | none => some (r, [])
    | some (_, t) => some (r1.on_text_input_enable t.input)
  | Event.text_input_commit addr state views =>
    match find_if (fun t => t.input.addr == addr) r.text_inputs with
    | none => some (r, [])
    | some (_, t0) =>
      let r1 := { r with text_inputs :=
        wlr_text_input_commit addr state t0.input.current_enabled r.text_inputs }
      match find_if (fun t => t.input.addr == addr) r1.text_inputs with
      | none => some (r, [])
      | some (_, t) => some (input_method_relay.on_text_input_commit views r1 t.input)
  | Event.text_input_disable addr state =>
    let r1 := { r with text_inputs := wlr_text_input_commit addr state false r.text_inputs }
    match find_if (fun t => t.input.addr == addr) r1.text_inputs with
    | none => some (r, [])
    | some (_, t) => some (r1.on_text_input_disable t.input)
  | Event.text_input_destroy addr =>
    match find_if (fun t => t.input.addr == addr) r.text_inputs with
    | none => some (r, [])
    | some (_, t) => some (r.on_text_input_destroy t.input)
  | Event.input_method_new addr client =>
    some (r.on_input_method_new
      { addr := addr, client := client,
        current := wlr_input_method_v2_state.zero, keyboard_grab := none })
  | Event.input_method_commit state =>
    match r.input_method with
    | none => some (r, [])
    | some im =>
      let im1 := { im with current := state }
      input_method_relay.on_input_method_commit { r with input_method := some im1 } im1
  | Event.input_method_destroy =>
    match r.input_method with
    | none => some (r, [])
    | some im => r.on_input_method_destroy im
  | Event.grab_keyboard grab =>
    match r.input_method with
    | none => some (r, [])
    | some im =>
      input_method_relay.on_grab_keyboard
        { r with input_method := some (wlr_input_method_grab im grab) } grab
  | Event.grab_keyboard_destroy =>
    match r.keyboard_grab with
    | none => some (r, [])
    | some _ =>
      input_method_relay.on_grab_keyboard_destroy
        { r with input_method := r.input_method.map (fun im => { im with keyboard_grab := none }) }
  | Event.set_focus surface => r.set_focus surface

/-- A run of events from a state, in order; the traces are concatenated. -/
def run (r : input_method_relay) : List Event → Option (input_method_relay × List Msg)
  | [] => some (r, [])
  | e :: es =>
    match step r e with
    | none => none
    | some (r1, m1) =>
      match run r1 es with
      | none => none
      | some (r2, m2) => some (r2, m1 ++ m2)

/-- Whether an event keeps one text input per client connection: a new text input
may only come from a client that has none in the collection. -/
def one_text_input_per_client (r : input_method_relay) : Event → Bool
  | Event.text_input_new _ client => r.text_inputs.all (fun t => t.input.client != client)
  | _ => true

/-- The states reached from the empty relay by events. -/
inductive Reachable : input_method_relay → Prop where
  | empty : Reachable input_method_relay.empty
  | step (r r1 : input_method_relay) (e : Event) (msgs : List Msg) :
      Reachable r → step r e = some (r1, msgs) → Reachable r1

/-- The states reached from the empty relay by events while no client connection has
more than one text input at a time. -/
inductive ReachableSingle : input_method_relay → Prop where
  | empty : ReachableSingle input_method_relay.empty
  | step (r r1 : input_method_relay) (e : Event) (msgs : List Msg) :
      ReachableSingle r → one_text_input_per_client r e = true →
      step r e = some (r1, msgs) → ReachableSingle r1

/-! ## Notions used in the statements and sample objects -/

/-- Position `i` holds `t`, the first element of the collection satisfying `p`. -/
def is_first (p : text_input → Bool) (l : List text_input) (i : Nat) (t : text_input) : Prop :=
  l[i]? = some t ∧ p t = true ∧ ∀ j u, j < i → l[j]? = some u → p u = false

/-- The first focused text input of the relay, in collection order. -/
def first_focused (r : input_method_relay) (i : Nat) (ti : text_input) : Prop :=
  is_first (fun t => t.input.focused_surface.isSome) r.text_inputs i ti

/-- The first text input of the relay with a pending surface, in collection order. -/
def first_pending (r : input_method_relay) (i : Nat) (ti : text_input) : Prop :=
  is_first (fun t => t.pending_focused_surface.isSome) r.text_inputs i ti

/-- A surface of client 7. -/
def surface_a : wlr_surface := { addr := 100, client := 7 }

/-- Another surface of client 7. -/
def surface_b : wlr_surface := { addr := 101, client := 7 }

/-- An input method of client 9 with an empty composition. -/
def im_a : wlr_input_method_v2 :=
  { addr := 50, client := 9, current := wlr_input_method_v2_state.zero, keyboard_grab := none }

/-- A second input method, of client 10. -/
def im_b : wlr_input_method_v2 :=
  { addr := 51, client := 10, current := wlr_input_method_v2_state.zero, keyboard_grab := none }

/-- A text input object of client 7 with the given address and focused surface. -/
def input_at (addr : Nat) (focused : Option wlr_surface) : wlr_text_input_v3 :=
  { addr := addr, client := 7, focused_surface := focused,
    current := wlr_text_input_v3_state.zero, current_enabled := false }

/-- A text input wrapper of client 7. -/
def wrapper_at (addr : Nat) (focused pending : Option wlr_surface) : text_input :=
  { input := input_at addr focused, pending_focused_surface := pending }

/-- The relay with `im_a` installed and one text input, focused on `surface_a`. -/
def relay_one_focused : input_method_relay :=
  { text_inputs := [wrapper_at 1 (some surface_a) none],
    input_method := some im_a, keyboard_grab := none, popup_surfaces := [] }

/-- An input method whose committed composition holds a present but empty preedit
string and nothing else. -/
def im_empty_preedit : wlr_input_method_v2 :=
  { addr := 50, client := 9,
    current :=
      { preedit := { text := some "", cursor_begin := 0, cursor_end := 0 },
        commit_text := none,
        delete_ := { before_length := 0, after_length := 0 } },
    keyboard_grab := none }

/-- The relay with `im_empty_preedit` installed and one text input, focused on
`surface_a`. -/
def relay_empty_preedit : input_method_relay :=
  { text_inputs := [wrapper_at 1 (some surface_a) none],
    input_method := some im_empty_preedit, keyboard_grab := none, popup_surfaces := [] }

/-- An input method whose committed composition is the one of the spec's scenario C:
preedit "wor", no commit text, no deletion. -/
def im_wor : wlr_input_method_v2 :=
  { addr := 50, client := 9,
    current :=
      { preedit := { text := some "wor", cursor_begin := 3, cursor_end := 3 },
        commit_text := none,
        delete_ := { before_length := 0, after_length := 0 } },
    keyboard_grab := none }

/-- The relay with `im_wor` installed and one text input, focused on `surface_a`. -/
def relay_wor : input_method_relay :=
  { text_inputs := [wrapper_at 1 (some surface_a) none],
    input_method := some im_wor, keyboard_grab := none, popup_surfaces := [] }

/-- The relay with `im_a` installed and two text inputs of the same client, both
focused on `surface_a`. -/
def relay_two_focused : input_method_relay :=
  { text_inputs := [wrapper_at 1 (some surface_a) none, wrapper_at 2 (some surface_a) none],
    input_method := some im_a, keyboard_grab := none, popup_surfaces := [] }

/-- The events that lead to `relay_two_focused`: a client creates two text inputs,
the input method connects, and a surface of that client gets the keyboard focus. -/
def events_two_focused : List Event :=
  [Event.text_input_new 1 7, Event.text_input_new 2 7, Event.input_method_new 50 9,
   Event.set_focus (some surface_a)]

/-- The relay with no input method and two text inputs, the second of them with
`surface_a` pending. -/
def relay_second_pending : input_method_relay :=
  { text_inputs := [wrapper_at 1 none none, wrapper_at 2 none (some surface_a)],
    input_method := none, keyboard_grab := none, popup_surfaces := [] }

/-- A text input is active when it has a focused surface or a pending surface. -/
def text_input.active (t : text_input) : Prop :=
  t.input.focused_surface ≠ none ∨ t.pending_focused_surface ≠ none

/-- The invariant of the focus fields of a collection of text inputs, given whether an
input method is installed: focused and pending surfaces belong to the client of their
text input; nothing is focused without an input method and nothing is pending with
one; no two text inputs share a client; all active text inputs have one client. -/
structure focus_inv (l : List text_input) (installed : Bool) : Prop where
  focused_client : ∀ t ∈ l, ∀ s, t.input.focused_surface = some s → s.client = t.input.client
  pending_client : ∀ t ∈ l, ∀ s, t.pending_focused_surface = some s → s.client = t.input.client
  focused_installed : installed = false → ∀ t ∈ l, t.input.focused_surface = none
  pending_absent : installed = true → ∀ t ∈ l, t.pending_focused_surface = none
  clients_nodup : (l.map (fun t => t.input.client)).Nodup
  one_client : ∀ t ∈ l, ∀ u ∈ l, t.active → u.active → t.input.client = u.input.client

/-- The relay with one unfocused text input and no input method. -/
def relay_one_idle : input_method_relay :=
  { text_inputs := [wrapper_at 1 none none],
    input_method := none, keyboard_grab := none, popup_surfaces := [] }

/-- The relay with one unfocused text input and `im_a` installed. -/
def relay_one_idle_im : input_method_relay :=
  { text_inputs := [wrapper_at 1 none none],
    input_method := some im_a, keyboard_grab := none, popup_surfaces := [] }

/-- The relay with no input method and two text inputs of the same client: the first
has `surface_a` pending, the second is still focused on `surface_a`. -/
def relay_orphan_focused : input_method_relay :=
  { text_inputs := [wrapper_at 1 none (some surface_a), wrapper_at 2 (some surface_a) none],
    input_method := none, keyboard_grab := none, popup_surfaces := [] }

/-- The `enter` a text input gets at the end of the loop body of `set_focus` when an
input method is installed: one `enter` for the target if the target is non-null and
of the client of the text input, else nothing. -/
def enter_for_target (t : text_input) (target : Option wlr_surface) : List Msg :=
  match target with
  | some s1 =>
    if t.input.client = s1.client then [Msg.text_input_send_enter t.input.addr s1] else []
  | none => []

/-- The relay with `im_a` installed and one text input, focused on `surface_b`. -/
def relay_b_focused : input_method_relay :=
  { text_inputs := [wrapper_at 1 (some surface_b) none],
    input_method := some im_a, keyboard_grab := none, popup_surfaces := [] }

/-- Whether the "cursor rectangle" feature flag of the text input is set. -/
def cursor_rect_set (ti : text_input) : Bool :=
  (ti.input.current.features &&& WLR_TEXT_INPUT_V3_FEATURE_CURSOR_RECTANGLE) != 0

/-- The anchor y in output-layout coordinates before the flip, in the words of the
spec: the bottom edge of the cursor rectangle when the feature flag is set, else 0;
minus the y of the xdg-surface geometry when there is one; plus the y of the window
and its top margin. -/
def anchor_y (view : view_info) (ti : text_input) : Int :=
  (if cursor_rect_set ti then
      ti.input.current.cursor_rectangle.y + ti.input.current.cursor_rectangle.height
    else 0)
    - (match view.xdg_geometry with
       | some geometry => geometry.y
       | none => 0)
    + (view.geometry.y + view.margins.top)

/-- A view at the origin of its output, without margins and without xdg geometry, on
an output of the given size. -/
def plain_view (width height : Int) : view_info :=
  { geometry := { x := 0, y := 0, width := width, height := height },
    margins := { left := 0, right := 0, top := 0, bottom := 0 },
    xdg_geometry := none,
    output_geometry := { x := 0, y := 0, width := width, height := height } }

/-- A mapped popup of the given size, with a zeroed geometry. -/
def popup_of (width height : Int) : popup_surface :=
  { addr := 70, surface_width := width, surface_height := height, mapped := true,
    geometry := { x := 0, y := 0, width := 0, height := 0 }, offset := (0, 0) }

/-- A text input of client 7, focused on `surface_a`, with the given feature flags and
cursor rectangle. -/
def wrapper_cursor (features : Nat) (cursor : wlr_box) : text_input :=
  { input :=
      { addr := 1, client := 7, focused_surface := some surface_a,
        current :=
          { surrounding := { text := none, cursor := 0, anchor := 0 }, text_change_cause := 0,
            content_type := { hint := 0, purpose := 0 }, features := features,
            cursor_rectangle := cursor },
        current_enabled := true },
    pending_focused_surface := none }

/-- The relay with `im_a` installed and the one text input `wrapper_cursor`. -/
def relay_cursor (features : Nat) (cursor : wlr_box) : input_method_relay :=
  { text_inputs := [wrapper_cursor features cursor],
    input_method := some im_a, keyboard_grab := none, popup_surfaces := [] }

/-- The focused and pending surfaces of every text input belong to the client
connection of that text input. -/
def surfaces_of_own_client (l : List text_input) : Prop :=
  (∀ t ∈ l, ∀ s, t.input.focused_surface = some s → s.client = t.input.client) ∧
  (∀ t ∈ l, ∀ s, t.pending_focused_surface = some s → s.client = t.input.client)

/-- The keyboard grab of the relay is the grab of the installed input method: same
address and same client connection; and the installed input method has no grab when
the relay has none. -/
def grab_consistent (r : input_method_relay) : Prop :=
  (∀ g, r.keyboard_grab = some g →
    ∃ im g1, r.input_method = some im ∧ im.keyboard_grab = some g1 ∧
      g1.addr = g.addr ∧ g1.client = g.client) ∧
  (∀ im, r.input_method = some im → r.keyboard_grab = none → im.keyboard_grab = none)

/-- A keyboard grab of client 9, not yet bound to a keyboard. -/
def grab_a : wlr_input_method_keyboard_grab_v2 := { addr := 60, client := 9, keyboard := none }

/-- A second keyboard grab of client 9. -/
def grab_b : wlr_input_method_keyboard_grab_v2 := { addr := 61, client := 9, keyboard := none }

/-- The input method `im_a` after it has taken the grab `grab_a`. -/
def im_a_grabbing : wlr_input_method_v2 :=
  { addr := 50, client := 9, current := wlr_input_method_v2_state.zero,
    keyboard_grab := some grab_a }

/-- The relay with only `im_a` installed. -/
def relay_im_only : input_method_relay :=
  { text_inputs := [], input_method := some im_a, keyboard_grab := none, popup_surfaces := [] }

/-- The relay with `im_a` installed and its grab `grab_a` installed. -/
def relay_grabbed : input_method_relay :=
  { text_inputs := [], input_method := some im_a_grabbing, keyboard_grab := some grab_a,
    popup_surfaces := [] }

/-- A physical keyboard. -/
def kbd_physical : wlr_keyboard := { addr := 80, virtual_keyboard := none, modifiers := 5 }

/-- A virtual keyboard created by client 9, the client of `im_a`. -/
def kbd_virtual_im : wlr_keyboard := { addr := 81, virtual_keyboard := some 9, modifiers := 0 }

/-- A virtual keyboard created by client 12. -/
def kbd_virtual_other : wlr_keyboard := { addr := 82, virtual_keyboard := some 12, modifiers := 0 }

/-- Whether a recorded call is a message to the input-method service. -/
def Msg.to_input_method : Msg → Bool
  | Msg.input_method_send_unavailable _ => true
  | Msg.input_method_send_activate _ => true
  | Msg.input_method_send_deactivate _ => true
  | Msg.input_method_send_surrounding_text _ _ _ _ => true
  | Msg.input_method_send_text_change_cause _ _ => true
  | Msg.input_method_send_content_type _ _ _ => true
  | Msg.input_method_send_done _ => true
  | _ => false

/-- A text input object of client 7 with a snapshot of its own: surrounding text
"hello" with cursor 5 and anchor 5, change cause 1, content type (2, 3). -/
def input_hello (enabled : Bool) : wlr_text_input_v3 :=
  { addr := 1, client := 7, focused_surface := some surface_a,
    current :=
      { surrounding := { text := some "hello", cursor := 5, anchor := 5 },
        text_change_cause := 1,
        content_type := { hint := 2, purpose := 3 }, features := 0,
        cursor_rectangle := { x := 0, y := 0, width := 0, height := 0 } },
    current_enabled := enabled }

/-- The relay with `im_a` installed, the text input `input_hello` (enabled) and one
other text input, and one mapped popup. -/
def relay_hello : input_method_relay :=
  { text_inputs := [{ input := input_hello true, pending_focused_surface := none },
      wrapper_at 2 none none],
    input_method := some im_a, keyboard_grab := none, popup_surfaces := [popup_of 300 80] }

/-- The relay `relay_hello` without an input method. -/
def relay_hello_alone : input_method_relay :=
  { text_inputs := [{ input := input_hello true, pending_focused_surface := none },
      wrapper_at 2 none none],
    input_method := none, keyboard_grab := none, popup_surfaces := [popup_of 300 80] }

/-- Events after which a text input is both pending and focused: a client creates two
text inputs, a surface of the client gets the focus while no input method is there,
the input method connects, and the same surface is given the focus again. -/
def events_pending_and_focused : List Event :=
  [Event.text_input_new 1 7, Event.text_input_new 2 7, Event.set_focus (some surface_a),
   Event.input_method_new 50 9, Event.set_focus (some surface_a)]

/-- A popup that is not mapped, with a geometry and an offset of its own. -/
def popup_unmapped : popup_surface :=
  { addr := 71, surface_width := 300, surface_height := 80, mapped := false,
    geometry := { x := 10, y := 20, width := 300, height := 80 }, offset := (10, 20) }

/-- A mapped popup with a geometry and an offset of its own. -/
def popup_placed : popup_surface :=
  { addr := 72, surface_width := 300, surface_height := 80, mapped := true,
    geometry := { x := 10, y := 20, width := 300, height := 80 }, offset := (10, 20) }

/-! # Theorems -/

/-! ## Lemmas on the lookups -/

theorem find_if_some {p : text_input → Bool} {l : List text_input} {i : Nat} {t : text_input}
    (h : find_if p l = some (i, t)) :
    l[i]? = some t ∧ p t = true ∧ ∀ j u, j < i → l[j]? = some u → p u = false := by
  induction l generalizing i with
  | nil => simp [find_if] at h
  | cons a as ih =>
    unfold find_if at h
    by_cases hp : p a = true
    · simp only [hp, if_true, Option.some.injEq, Prod.mk.injEq] at h
      obtain ⟨rfl, rfl⟩ := h
      refine ⟨by simp, hp, ?_⟩
      intro j u hj
      omega
    · simp only [hp, if_false] at h
      cases hrec : find_if p as with
      | none => simp [hrec] at h
      | some q =>
        obtain ⟨k, x⟩ := q
        simp only [hrec, Option.some.injEq, Prod.mk.injEq] at h
        obtain ⟨rfl, rfl⟩ := h
        obtain ⟨h1, h2, h3⟩ := ih hrec
        refine ⟨by simpa using h1, h2, ?_⟩
        intro j u hj hu
        cases j with
        | zero =>
          simp only [List.getElem?_cons_zero, Option.some.injEq] at hu
          subst hu
          simpa using hp
        | succ j =>
          simp only [List.getElem?_cons_succ] at hu
          exact h3 j u (by omega) hu

theorem find_if_none {p : text_input → Bool} {l : List text_input}
    (h : find_if p l = none) : ∀ t ∈ l, p t = false := by
  induction l with
  | nil => simp
  | cons a as ih =>
    unfold find_if at h
    by_cases hp : p a = true
    · simp [hp] at h
    · simp only [hp, if_false] at h
      cases hrec : find_if p as with
      | none =>
        intro t ht
        rcases List.mem_cons.mp ht with rfl | ht
        · simpa using hp
        · exact ih hrec t ht
      | some q => simp [hrec] at h

theorem find_if_of_mem {p : text_input → Bool} {l : List text_input} {t : text_input}
    (hm : t ∈ l) (hp : p t = true) : ∃ i u, find_if p l = some (i, u) := by
  cases h : find_if p l with
  | none =>
    have := find_if_none h t hm
    simp [hp] at this
  | some q => exact ⟨q.1, q.2, rfl⟩

theorem find_if_eq_none {p : text_input → Bool} {l : List text_input}
    (h : ∀ t ∈ l, p t = false) : find_if p l = none := by
  cases hf : find_if p l with
  | none => rfl
  | some q =>
    obtain ⟨i, t⟩ := q
    obtain ⟨h1, h2, _⟩ := find_if_some hf
    have := h t (List.getElem?_mem h1)
    simp [h2] at this

theorem find_if_eq_some {p : text_input → Bool} {l : List text_input} {i : Nat} {t : text_input}
    (h : is_first p l i t) : find_if p l = some (i, t) := by
  obtain ⟨h1, h2, h3⟩ := h
  obtain ⟨k, u, hf⟩ := find_if_of_mem (List.getElem?_mem h1) h2
  obtain ⟨g1, g2, g3⟩ := find_if_some hf
  have hki : k = i := by
    rcases Nat.lt_trichotomy k i with hlt | heq | hgt
    · have := h3 k u hlt g1
      simp [g2] at this
    · exact heq
    · have := g3 i t hgt h1
      simp [h2] at this
  subst hki
  rw [g1] at h1
  simp only [Option.some.injEq] at h1
  subst h1
  exact hf

/-! ## Service connection -/

theorem connect_all_installed (r : input_method_relay) (im : wlr_input_method_v2)
    (h : r.input_method = some im) (news : List wlr_input_method_v2) :
    connect_all r news = (r, news.map (fun n => Msg.input_method_send_unavailable n.addr)) := by
  induction news with
  | nil => rfl
  | cons n ns ih =>
    simp [connect_all, input_method_relay.on_input_method_new, h, ih]

theorem on_input_method_new_installs (r : input_method_relay) (im : wlr_input_method_v2)
    (h : r.input_method = none) : (r.on_input_method_new im).1.input_method = some im := by
  unfold input_method_relay.on_input_method_new
  simp only [h]
  split
  · split <;> rfl
  · rfl

/-! ## C1: singleton service -/

/-- C1. While an input method is installed, a new input-method connection gets
exactly one `unavailable` and the relay state stays as it is; the same holds along
any run of connections, and along a run from any state the installed input method
is the one that was installed before, or else the first to connect: never a later
one. -/
theorem on_input_method_new_singleton (r : input_method_relay) (im : wlr_input_method_v2)
    (h : r.input_method = some im) :
    (∀ new_input_method : wlr_input_method_v2,
      r.on_input_method_new new_input_method =
        (r, [Msg.input_method_send_unavailable new_input_method.addr])) ∧
    (∀ news : List wlr_input_method_v2,
      connect_all r news = (r, news.map (fun n => Msg.input_method_send_unavailable n.addr))) ∧
    (∀ (s : input_method_relay) (news : List wlr_input_method_v2),
      (connect_all s news).1.input_method =
        match s.input_method with
        | some old => some old
        | none => news.head?) := by
  refine ⟨?_, connect_all_installed r im h, ?_⟩
  · intro n
    simp [input_method_relay.on_input_method_new, h]
  · intro s news
    cases hs : s.input_method with
    | some old => simp [connect_all_installed s old hs, hs]
    | none =>
      cases news with
      | nil => simp [connect_all, hs]
      | cons n ns =>
        have h1 := on_input_method_new_installs s n hs
        have h2 := connect_all_installed (s.on_input_method_new n).1 n h1 ns
        simp [connect_all, h2, h1]

/-- C1 at a concrete relay: `im_a` is installed, one text input is focused, and
`im_b` tries to connect. -/
theorem on_input_method_new_singleton_witness :
    relay_one_focused.input_method = some im_a ∧
    relay_one_focused.on_input_method_new im_b =
      (relay_one_focused, [Msg.input_method_send_unavailable 51]) :=
  ⟨rfl, (on_input_method_new_singleton relay_one_focused im_a rfl).1 im_b⟩

/-! ## C2: composition forwarding -/

/-- C2 as stated fails: the preedit text is the empty string, yet `preedit-string`
is sent (with the empty text) before `done`. -/
theorem on_input_method_commit_empty_preedit_sent :
    im_empty_preedit.current.preedit.text = some "" ∧
    relay_empty_preedit.on_input_method_commit im_empty_preedit =
      some (relay_empty_preedit,
        [Msg.text_input_send_preedit_string 1 "" 0 0, Msg.text_input_send_done 1]) := by
  decide

/-- C2, amended. The commit handler leaves the relay as it is. With no focused text
input it sends nothing. Otherwise it sends to the first focused text input, in this
order: `preedit-string` exactly when the preedit text is present (non-null, possibly
empty), `commit-string` exactly when the commit text is present, then
`delete-surrounding-text` exactly when one of the two lengths is non-zero, then one
`done`. -/
theorem on_input_method_commit_sequence (r : input_method_relay) (im : wlr_input_method_v2)
    (h : r.input_method = some im) :
    ((∀ t ∈ r.text_inputs, t.input.focused_surface = none) →
      r.on_input_method_commit im = some (r, [])) ∧
    (∀ (i : Nat) (ti : text_input), first_focused r i ti →
      ∃ pre com del : List Msg,
        r.on_input_method_commit im =
          some (r, pre ++ com ++ del ++ [Msg.text_input_send_done ti.input.addr]) ∧
        (∀ text, im.current.preedit.text = some text →
          pre = [Msg.text_input_send_preedit_string ti.input.addr text
            im.current.preedit.cursor_begin im.current.preedit.cursor_end]) ∧
        (im.current.preedit.text = none → pre = []) ∧
        (∀ text, im.current.commit_text = some text →
          com = [Msg.text_input_send_commit_string ti.input.addr text]) ∧
        (im.current.commit_text = none → com = []) ∧
        (im.current.delete_.before_length ≠ 0 ∨ im.current.delete_.after_length ≠ 0 →
          del = [Msg.text_input_send_delete_surrounding_text ti.input.addr
            im.current.delete_.before_length im.current.delete_.after_length]) ∧
        (im.current.delete_.before_length = 0 ∧ im.current.delete_.after_length = 0 →
          del = [])) := by
  constructor
  · intro hnone
    have hf : r.find_focused_text_input = none :=
      find_if_eq_none (fun t ht => by simp [hnone t ht])
    simp [input_method_relay.on_input_method_commit, h, hf]
  · intro i ti hfirst
    have hf : r.find_focused_text_input = some (i, ti) := find_if_eq_some hfirst
    refine ⟨
      (match im.current.preedit.text with
        | some text =>
          [Msg.text_input_send_preedit_string ti.input.addr text
            im.current.preedit.cursor_begin im.current.preedit.cursor_end]
        | none => []),
      (match im.current.commit_text with
        | some text => [Msg.text_input_send_commit_string ti.input.addr text]
        | none => []),
      (if im.current.delete_.before_length ≠ 0 ∨ im.current.delete_.after_length ≠ 0 then
          [Msg.text_input_send_delete_surrounding_text ti.input.addr
            im.current.delete_.before_length im.current.delete_.after_length]
        else []), ?_, ?_, ?_, ?_, ?_, ?_, ?_⟩
    · simp only [input_method_relay.on_input_method_commit, h, hf, ne_eq, not_true_eq_false,
        if_false]
    · intro text ht
      simp [ht]
    · intro ht
      simp [ht]
    · intro text ht
      simp [ht]
    · intro ht
      simp [ht]
    · intro hd
      simp [hd]
    · intro hd
      simp [hd.1, hd.2]

/-- C2, amended, at the composition of the spec's scenario C: preedit "wor", no
commit text, no deletion. The focused text input gets `preedit-string` then `done`. -/
theorem on_input_method_commit_sequence_witness :
    relay_wor.input_method = some im_wor ∧
    first_focused relay_wor 0 (wrapper_at 1 (some surface_a) none) ∧
    ∃ pre com del : List Msg,
      relay_wor.on_input_method_commit im_wor =
        some (relay_wor, pre ++ com ++ del ++ [Msg.text_input_send_done 1]) ∧
      pre = [Msg.text_input_send_preedit_string 1 "wor" 3 3] ∧ com = [] ∧ del = [] := by
  have hfirst : first_focused relay_wor 0 (wrapper_at 1 (some surface_a) none) :=
    ⟨rfl, rfl, fun j _ hj _ => absurd hj (Nat.not_lt_zero j)⟩
  obtain ⟨pre, com, del, h1, h2, _, _, h5, _, h7⟩ :=
    (on_input_method_commit_sequence relay_wor im_wor rfl).2 0 _ hfirst
  exact ⟨rfl, hfirst, pre, com, del, h1, h2 "wor" rfl, h5 rfl, h7 ⟨rfl, rfl⟩⟩

theorem is_first_exists {p : text_input → Bool} {l : List text_input}
    (h : ∃ t ∈ l, p t = true) : ∃ i t, is_first p l i t := by
  obtain ⟨t, hm, hp⟩ := h
  obtain ⟨i, u, hf⟩ := find_if_of_mem hm hp
  exact ⟨i, u, find_if_some hf⟩

/-! ## C3: loss of the service -/

/-- C3 as stated fails. The relay `relay_two_focused` is reached from the empty relay;
its second text input is focused on `surface_a`; after the destroy event of the input
method that text input is still focused, has no pending surface, and got no `leave`:
only the first text input was demoted. -/
theorem on_input_method_destroy_second_focused_kept :
    run input_method_relay.empty events_two_focused =
      some (relay_two_focused,
        [Msg.text_input_send_enter 1 surface_a, Msg.text_input_send_enter 2 surface_a]) ∧
    relay_two_focused.text_inputs[1]? = some (wrapper_at 2 (some surface_a) none) ∧
    relay_two_focused.on_input_method_destroy im_a =
      some ({ text_inputs :=
                [wrapper_at 1 none (some surface_a), wrapper_at 2 (some surface_a) none],
              input_method := none, keyboard_grab := none, popup_surfaces := [] },
        [Msg.text_input_send_leave 1]) := by
  decide

/-- C3, amended. With an input method installed, the destroy event of the input
method turns the first focused text input in collection order, focused on `surface`,
into one with `surface` pending and no focused surface, sends exactly one `leave`, to
that text input, and leaves the relay with no input method and no keyboard grab; every
other text input is as before. A first focused text input exists as soon as some text
input is focused. -/
theorem on_input_method_destroy_first_focused (r : input_method_relay)
    (im : wlr_input_method_v2) (h : r.input_method = some im) :
    (∀ (i : Nat) (ti : text_input) (surface : wlr_surface),
      first_focused r i ti → ti.input.focused_surface = some surface →
      r.on_input_method_destroy im =
        some ({ text_inputs := r.text_inputs.set i
                  { input := { ti.input with focused_surface := none },
                    pending_focused_surface := some surface },
                input_method := none, keyboard_grab := none,
                popup_surfaces := r.popup_surfaces },
          [Msg.text_input_send_leave ti.input.addr]) ∧
      (r.text_inputs.set i
          { input := { ti.input with focused_surface := none },
            pending_focused_surface := some surface })[i]? =
        some { input := { ti.input with focused_surface := none },
               pending_focused_surface := some surface }) ∧
    ((∃ t ∈ r.text_inputs, t.input.focused_surface ≠ none) →
      ∃ i ti, first_focused r i ti) := by
  constructor
  · intro i ti surface hfirst hs
    have hf : input_method_relay.find_focused_text_input
        { r with input_method := none, keyboard_grab := none } = some (i, ti) :=
      find_if_eq_some hfirst
    have hlt : i < r.text_inputs.length := by
      have := hfirst.1
      exact (List.getElem?_eq_some_iff.mp this).1
    constructor
    · simp only [input_method_relay.on_input_method_destroy, h, ne_eq, not_true_eq_false,
        if_false, hf, text_input.set_pending_focused_surface, wlr_text_input_v3_send_leave, hs]
    · simp [hlt]
  · rintro ⟨t, hm, hne⟩
    exact is_first_exists ⟨t, hm, by
      cases hfs : t.input.focused_surface with
      | none => exact absurd hfs hne
      | some s => rfl⟩

/-- C3, amended, at the relay with one text input focused on `surface_a`. -/
theorem on_input_method_destroy_first_focused_witness :
    relay_one_focused.input_method = some im_a ∧
    first_focused relay_one_focused 0 (wrapper_at 1 (some surface_a) none) ∧
    relay_one_focused.on_input_method_destroy im_a =
      some ({ text_inputs := [wrapper_at 1 none (some surface_a)],
              input_method := none, keyboard_grab := none, popup_surfaces := [] },
        [Msg.text_input_send_leave 1]) :=
  have hfirst : first_focused relay_one_focused 0 (wrapper_at 1 (some surface_a) none) :=
    ⟨rfl, rfl, fun j _ hj _ => absurd hj (Nat.not_lt_zero j)⟩
  ⟨rfl, hfirst,
    ((on_input_method_destroy_first_focused relay_one_focused im_a rfl).1 0 _ surface_a
      hfirst rfl).1⟩

/-! ## C4: a new service picks up the pending focus -/

/-- C4. With no input method installed, a new input-method connection is installed;
the first text input in collection order with a pending surface gets exactly one
`enter` for that surface, becomes focused on it and has its pending surface cleared;
nothing else is sent (nothing goes to the service) and every other text input is as
before. Such a first text input exists as soon as some text input has a pending
surface. -/
theorem on_input_method_new_reattach (r : input_method_relay)
    (new_input_method : wlr_input_method_v2) (h : r.input_method = none) :
    (∀ (i : Nat) (ti : text_input) (surface : wlr_surface),
      first_pending r i ti → ti.pending_focused_surface = some surface →
      r.on_input_method_new new_input_method =
        ({ text_inputs := r.text_inputs.set i
             { input := { ti.input with focused_surface := some surface },
               pending_focused_surface := none },
           input_method := some new_input_method, keyboard_grab := r.keyboard_grab,
           popup_surfaces := r.popup_surfaces },
          [Msg.text_input_send_enter ti.input.addr surface]) ∧
      (r.text_inputs.set i
          { input := { ti.input with focused_surface := some surface },
            pending_focused_surface := none })[i]? =
        some { input := { ti.input with focused_surface := some surface },
               pending_focused_surface := none }) ∧
    ((∃ t ∈ r.text_inputs, t.pending_focused_surface ≠ none) →
      ∃ i ti, first_pending r i ti) := by
  constructor
  · intro i ti surface hfirst hs
    have hf : input_method_relay.find_focusable_text_input
        { r with input_method := some new_input_method } = some (i, ti) :=
      find_if_eq_some hfirst
    have hlt : i < r.text_inputs.length :=
      (List.getElem?_eq_some_iff.mp hfirst.1).1
    constructor
    · simp only [input_method_relay.on_input_method_new, h, hf, hs,
        text_input.set_pending_focused_surface, wlr_text_input_v3_send_enter]
    · simp [hlt]
  · rintro ⟨t, hm, hne⟩
    exact is_first_exists ⟨t, hm, by
      cases hfs : t.pending_focused_surface with
      | none => exact absurd hfs hne
      | some s => rfl⟩

/-- C4 at a relay whose second text input has `surface_a` pending: the new input
method is installed and only that text input gets `enter`. -/
theorem on_input_method_new_reattach_witness :
    relay_second_pending.input_method = none ∧
    first_pending relay_second_pending 1 (wrapper_at 2 none (some surface_a)) ∧
    relay_second_pending.on_input_method_new im_a =
      ({ text_inputs := [wrapper_at 1 none none, wrapper_at 2 (some surface_a) none],
         input_method := some im_a, keyboard_grab := none, popup_surfaces := [] },
        [Msg.text_input_send_enter 2 surface_a]) :=
  have hfirst : first_pending relay_second_pending 1 (wrapper_at 2 none (some surface_a)) :=
    ⟨rfl, rfl, fun j u hj hu => by
      have hj0 : j = 0 := by omega
      subst hj0
      simp only [relay_second_pending, List.getElem?_cons_zero, Option.some.injEq] at hu
      subst hu
      rfl⟩
  ⟨rfl, hfirst,
    ((on_input_method_new_reattach relay_second_pending im_a rfl).1 1 _ surface_a
      hfirst rfl).1⟩

/-! ## The focus invariant -/

theorem focus_inv_nil (b : Bool) : focus_inv [] b :=
  ⟨by simp, by simp, by simp, by simp, by simp, by simp⟩

theorem focus_inv_map {l : List text_input} {b : Bool} (f : text_input → text_input)
    (hc : ∀ t, (f t).input.client = t.input.client)
    (hf : ∀ t, (f t).input.focused_surface = t.input.focused_surface ∨
      (f t).input.focused_surface = none)
    (hp : ∀ t, (f t).pending_focused_surface = t.pending_focused_surface ∨
      (f t).pending_focused_surface = none)
    (h : focus_inv l b) : focus_inv (l.map f) b := by
  have hact : ∀ t, (f t).active → t.active := by
    intro t ha
    rcases ha with ha | ha
    · rcases hf t with e | e
      · exact Or.inl (e ▸ ha)
      · exact absurd e ha
    · rcases hp t with e | e
      · exact Or.inr (e ▸ ha)
      · exact absurd e ha
  refine ⟨?_, ?_, ?_, ?_, ?_, ?_⟩
  · intro t ht s hs
    obtain ⟨t0, ht0, rfl⟩ := List.mem_map.mp ht
    rw [hc]
    rcases hf t0 with e | e
    · exact h.focused_client t0 ht0 s (e ▸ hs)
    · rw [e] at hs; cases hs
  · intro t ht s hs
    obtain ⟨t0, ht0, rfl⟩ := List.mem_map.mp ht
    rw [hc]
    rcases hp t0 with e | e
    · exact h.pending_client t0 ht0 s (e ▸ hs)
    · rw [e] at hs; cases hs
  · intro hb t ht
    obtain ⟨t0, ht0, rfl⟩ := List.mem_map.mp ht
    rcases hf t0 with e | e
    · rw [e]; exact h.focused_installed hb t0 ht0
    · exact e
  · intro hb t ht
    obtain ⟨t0, ht0, rfl⟩ := List.mem_map.mp ht
    rcases hp t0 with e | e
    · rw [e]; exact h.pending_absent hb t0 ht0
    · exact e
  · have : (l.map f).map (fun t => t.input.client) = l.map (fun t => t.input.client) := by
      rw [List.map_map]
      exact List.map_congr_left (fun t _ => hc t)
    rw [this]
    exact h.clients_nodup
  · intro t ht u hu hta hua
    obtain ⟨t0, ht0, rfl⟩ := List.mem_map.mp ht
    obtain ⟨u0, hu0, rfl⟩ := List.mem_map.mp hu
    rw [hc, hc]
    exact h.one_client t0 ht0 u0 hu0 (hact t0 hta) (hact u0 hua)

theorem focus_inv_filter {l : List text_input} {b : Bool} (p : text_input → Bool)
    (h : focus_inv l b) : focus_inv (l.filter p) b := by
  have hsub : ∀ t, t ∈ l.filter p → t ∈ l := fun t ht => (List.mem_filter.mp ht).1
  refine ⟨?_, ?_, ?_, ?_, ?_, ?_⟩
  · exact fun t ht => h.focused_client t (hsub t ht)
  · exact fun t ht => h.pending_client t (hsub t ht)
  · exact fun hb t ht => h.focused_installed hb t (hsub t ht)
  · exact fun hb t ht => h.pending_absent hb t (hsub t ht)
  · exact h.clients_nodup.sublist ((List.filter_sublist l).map _)
  · exact fun t ht u hu => h.one_client t (hsub t ht) u (hsub u hu)

theorem focus_inv_append {l : List text_input} {b : Bool} (x : text_input)
    (hx1 : x.input.focused_surface = none) (hx2 : x.pending_focused_surface = none)
    (hfresh : ∀ t ∈ l, t.input.client ≠ x.input.client)
    (h : focus_inv l b) : focus_inv (l ++ [x]) b := by
  have hxa : ¬ x.active := by
    rintro (ha | ha)
    · exact ha hx1
    · exact ha hx2
  have hmem : ∀ t, t ∈ l ++ [x] → t ∈ l ∨ t = x := by
    intro t ht
    simpa using ht
  refine ⟨?_, ?_, ?_, ?_, ?_, ?_⟩
  · intro t ht s hs
    rcases hmem t ht with ht | rfl
    · exact h.focused_client t ht s hs
    · rw [hx1] at hs; cases hs
  · intro t ht s hs
    rcases hmem t ht with ht | rfl
    · exact h.pending_client t ht s hs
    · rw [hx2] at hs; cases hs
  · intro hb t ht
    rcases hmem t ht with ht | rfl
    · exact h.focused_installed hb t ht
    · exact hx1
  · intro hb t ht
    rcases hmem t ht with ht | rfl
    · exact h.pending_absent hb t ht
    · exact hx2
  · rw [List.map_append, List.nodup_append]
    refine ⟨h.clients_nodup, by simp, ?_⟩
    intro c hc1 hc2
    obtain ⟨t, ht, rfl⟩ := List.mem_map.mp hc1
    simp only [List.map_cons, List.map_nil, List.mem_singleton] at hc2
    exact hfresh t ht hc2
  · intro t ht u hu hta hua
    rcases hmem t ht with ht | rfl
    · rcases hmem u hu with hu | rfl
      · exact h.one_client t ht u hu hta hua
      · exact absurd hua hxa
    · exact absurd hta hxa

theorem focus_inv_inactive {l : List text_input} {b : Bool} (b1 : Bool)
    (hin : ∀ t ∈ l, ¬ t.active) (h : focus_inv l b) : focus_inv l b1 := by
  have hf : ∀ t ∈ l, t.input.focused_surface = none := by
    intro t ht
    by_contra hne
    exact hin t ht (Or.inl hne)
  have hp : ∀ t ∈ l, t.pending_focused_surface = none := by
    intro t ht
    by_contra hne
    exact hin t ht (Or.inr hne)
  exact ⟨h.focused_client, h.pending_client, fun _ => hf, fun _ => hp, h.clients_nodup,
    h.one_client⟩

theorem mem_set_of_nodup {l : List text_input} {i : Nat} {t t1 x : text_input}
    (hnd : (l.map (fun t => t.input.client)).Nodup) (hi : l[i]? = some t)
    (hx : x ∈ l.set i t1) : x = t1 ∨ (x ∈ l ∧ x.input.client ≠ t.input.client) := by
  obtain ⟨j, hj⟩ := List.mem_iff_getElem?.mp hx
  rw [List.getElem?_set] at hj
  by_cases hij : i = j
  · simp only [hij, if_true] at hj
    split at hj
    · left
      exact (Option.some.inj hj).symm
    · cases hj
  · simp only [hij, if_false] at hj
    right
    refine ⟨List.getElem?_mem hj, ?_⟩
    intro hc
    have hil : i < l.length := (List.getElem?_eq_some_iff.mp hi).1
    have hjl : j < l.length := (List.getElem?_eq_some_iff.mp hj).1
    have e1 : (l.map (fun t => t.input.client))[i]? = some t.input.client := by simp [hi]
    have e2 : (l.map (fun t => t.input.client))[j]? = some t.input.client := by simp [hj, hc]
    rcases Nat.lt_or_gt_of_ne hij with hlt | hgt
    · exact (List.nodup_iff_getElem?_ne_getElem?.mp hnd i j hlt (by simpa using hjl))
        (e1.trans e2.symm)
    · exact (List.nodup_iff_getElem?_ne_getElem?.mp hnd j i hgt (by simpa using hil))
        (e2.trans e1.symm)

theorem focus_inv_set {l : List text_input} {b : Bool} (b1 : Bool) {i : Nat}
    {t t1 : text_input} (hi : l[i]? = some t) (hact : t.active)
    (hc : t1.input.client = t.input.client)
    (h1 : ∀ s, t1.input.focused_surface = some s → s.client = t1.input.client)
    (h2 : ∀ s, t1.pending_focused_surface = some s → s.client = t1.input.client)
    (h3 : b1 = false → t1.input.focused_surface = none)
    (h4 : b1 = true → t1.pending_focused_surface = none)
    (h : focus_inv l b) : focus_inv (l.set i t1) b1 := by
  have hothers : ∀ x, x ∈ l.set i t1 → x = t1 ∨ (x ∈ l ∧ ¬ x.active) := by
    intro x hx
    rcases mem_set_of_nodup h.clients_nodup hi hx with e | ⟨hm, hne⟩
    · exact Or.inl e
    · exact Or.inr ⟨hm, fun ha => hne (h.one_client x hm t (List.getElem?_mem hi) ha hact)⟩
  have hf : ∀ x : text_input, ¬ x.active → x.input.focused_surface = none := by
    intro x hx
    by_contra hne
    exact hx (Or.inl hne)
  have hp : ∀ x : text_input, ¬ x.active → x.pending_focused_surface = none := by
    intro x hx
    by_contra hne
    exact hx (Or.inr hne)
  refine ⟨?_, ?_, ?_, ?_, ?_, ?_⟩
  · intro x hx s hs
    rcases hothers x hx with rfl | ⟨hm, _⟩
    · exact h1 s hs
    · exact h.focused_client x hm s hs
  · intro x hx s hs
    rcases hothers x hx with rfl | ⟨hm, _⟩
    · exact h2 s hs
    · exact h.pending_client x hm s hs
  · intro hb x hx
    rcases hothers x hx with rfl | ⟨_, hna⟩
    · exact h3 hb
    · exact hf x hna
  · intro hb x hx
    rcases hothers x hx with rfl | ⟨_, hna⟩
    · exact h4 hb
    · exact hp x hna
  · have hil : i < l.length := (List.getElem?_eq_some_iff.mp hi).1
    have : (l.set i t1).map (fun t => t.input.client) = l.map (fun t => t.input.client) := by
      apply List.ext_getElem?
      intro j
      simp only [List.getElem?_map, List.getElem?_set]
      by_cases hij : i = j
      · subst hij
        simp [hil, hi, hc]
      · simp [hij]
    rw [this]
    exact h.clients_nodup
  · intro x hx y hy hxa hya
    rcases hothers x hx with rfl | ⟨_, hna⟩
    · rcases hothers y hy with rfl | ⟨_, hna⟩
      · rfl
      · exact absurd hya hna
    · exact absurd hxa hna

/-! ## The focus invariant under the handlers -/

theorem set_focus_body_inv (im : Option wlr_input_method_v2) (target : Option wlr_surface)
    (t t1 : text_input) (m : List Msg)
    (hb : set_focus_body im target t = some (t1, m))
    (h1 : ∀ s, t.input.focused_surface = some s → s.client = t.input.client)
    (h2 : ∀ s, t.pending_focused_surface = some s → s.client = t.input.client)
    (h3 : im = none → t.input.focused_surface = none)
    (h4 : im ≠ none → t.pending_focused_surface = none) :
    t1.input.client = t.input.client ∧
    (∀ s, t1.input.focused_surface = some s → s.client = t1.input.client) ∧
    (∀ s, t1.pending_focused_surface = some s → s.client = t1.input.client) ∧
    (im = none → t1.input.focused_surface = none) ∧
    (im ≠ none → t1.pending_focused_surface = none) ∧
    (t1.active → ∃ s0, target = some s0 ∧ t1.input.client = s0.client) := by
  obtain ⟨⟨addr, client, focused, cur, en⟩, pending⟩ := t
  cases pending <;> cases focused <;> cases target <;> cases im <;>
    simp [set_focus_body, set_focus_enter, wlr_text_input_v3_send_enter,
      wlr_text_input_v3_send_leave, text_input.set_pending_focused_surface,
      text_input.active] at hb h1 h2 h3 h4 ⊢
  all_goals (repeat' split at hb)
  all_goals (obtain ⟨rfl, _⟩ := hb; simp_all)

theorem set_focus_loop_mem {im : Option wlr_input_method_v2} {target : Option wlr_surface}
    {l l1 : List text_input} {m : List Msg} (h : set_focus_loop im target l = some (l1, m)) :
    ∀ t1 ∈ l1, ∃ t ∈ l, ∃ m1, set_focus_body im target t = some (t1, m1) := by
  induction l generalizing l1 m with
  | nil =>
    simp only [set_focus_loop, Option.some.injEq, Prod.mk.injEq] at h
    obtain ⟨rfl, _⟩ := h
    simp
  | cons a as ih =>
    unfold set_focus_loop at h
    cases hb : set_focus_body im target a with
    | none => simp [hb] at h
    | some q =>
      obtain ⟨a1, ma⟩ := q
      cases hl : set_focus_loop im target as with
      | none => simp [hb, hl] at h
      | some q2 =>
        obtain ⟨as1, ms⟩ := q2
        simp only [hb, hl, Option.some.injEq, Prod.mk.injEq] at h
        obtain ⟨rfl, _⟩ := h
        intro t1 ht1
        rcases List.mem_cons.mp ht1 with rfl | ht1
        · exact ⟨a, List.mem_cons_self _ _, ma, hb⟩
        · obtain ⟨t, ht, m1, hm1⟩ := ih hl t1 ht1
          exact ⟨t, List.mem_cons_of_mem _ ht, m1, hm1⟩

theorem set_focus_body_client {im : Option wlr_input_method_v2} {target : Option wlr_surface}
    {t t1 : text_input} {m : List Msg} (hb : set_focus_body im target t = some (t1, m)) :
    t1.input.client = t.input.client := by
  obtain ⟨⟨addr, client, focused, cur, en⟩, pending⟩ := t
  cases pending <;> cases focused <;> cases target <;> cases im <;>
    simp [set_focus_body, set_focus_enter, wlr_text_input_v3_send_enter,
      wlr_text_input_v3_send_leave, text_input.set_pending_focused_surface] at hb ⊢
  all_goals (repeat' split at hb)
  all_goals (obtain ⟨rfl, _⟩ := hb; simp_all)

theorem set_focus_loop_clients {im : Option wlr_input_method_v2} {target : Option wlr_surface}
    {l l1 : List text_input} {m : List Msg} (h : set_focus_loop im target l = some (l1, m)) :
    l1.map (fun t => t.input.client) = l.map (fun t => t.input.client) := by
  induction l generalizing l1 m with
  | nil =>
    simp only [set_focus_loop, Option.some.injEq, Prod.mk.injEq] at h
    obtain ⟨rfl, _⟩ := h
    rfl
  | cons a as ih =>
    unfold set_focus_loop at h
    cases hb : set_focus_body im target a with
    | none => simp [hb] at h
    | some q =>
      obtain ⟨a1, ma⟩ := q
      cases hl : set_focus_loop im target as with
      | none => simp [hb, hl] at h
      | some q2 =>
        obtain ⟨as1, ms⟩ := q2
        simp only [hb, hl, Option.some.injEq, Prod.mk.injEq] at h
        obtain ⟨rfl, _⟩ := h
        simp only [List.map_cons, ih hl, set_focus_body_client hb]

theorem focus_inv_set_focus {im : Option wlr_input_method_v2} {target : Option wlr_surface}
    {l l1 : List text_input} {m : List Msg} (hl : set_focus_loop im target l = some (l1, m))
    (h : focus_inv l im.isSome) : focus_inv l1 im.isSome := by
  have key : ∀ t1 ∈ l1,
      (∀ s, t1.input.focused_surface = some s → s.client = t1.input.client) ∧
      (∀ s, t1.pending_focused_surface = some s → s.client = t1.input.client) ∧
      (im = none → t1.input.focused_surface = none) ∧
      (im ≠ none → t1.pending_focused_surface = none) ∧
      (t1.active → ∃ s0, target = some s0 ∧ t1.input.client = s0.client) := by
    intro t1 ht1
    obtain ⟨t, ht, m1, hb⟩ := set_focus_loop_mem hl t1 ht1
    have := set_focus_body_inv im target t t1 m1 hb (h.focused_client t ht)
      (h.pending_client t ht)
      (fun e => h.focused_installed (by simp [e]) t ht)
      (fun e => h.pending_absent (by
        cases im with
        | none => exact absurd rfl e
        | some _ => rfl) t ht)
    exact this.2
  refine ⟨?_, ?_, ?_, ?_, ?_, ?_⟩
  · exact fun t ht => (key t ht).1
  · exact fun t ht => (key t ht).2.1
  · intro hb t ht
    refine (key t ht).2.2.1 ?_
    cases im with
    | none => rfl
    | some _ => simp at hb
  · intro hb t ht
    refine (key t ht).2.2.2.1 ?_
    cases im with
    | none => simp at hb
    | some _ => simp
  · rw [set_focus_loop_clients hl]
    exact h.clients_nodup
  · intro t ht u hu hta hua
    obtain ⟨s0, hs0, hc0⟩ := (key t ht).2.2.2.2 hta
    obtain ⟨s1, hs1, hc1⟩ := (key u hu).2.2.2.2 hua
    rw [hs0] at hs1
    cases hs1
    rw [hc0, hc1]

theorem focus_inv_on_input_method_new (r : input_method_relay) (im : wlr_input_method_v2)
    (h : focus_inv r.text_inputs r.input_method.isSome) :
    focus_inv (r.on_input_method_new im).1.text_inputs
      (r.on_input_method_new im).1.input_method.isSome := by
  cases him : r.input_method with
  | some old =>
    simp only [input_method_relay.on_input_method_new, him]
    simpa [him] using h
  | none =>
    rw [him] at h
    cases hf : input_method_relay.find_focusable_text_input
        { r with input_method := some im } with
    | none =>
      simp only [input_method_relay.on_input_method_new, him, hf]
      refine focus_inv_inactive true ?_ h
      intro t ht hact
      have hp := find_if_none hf t ht
      rcases hact with ha | ha
      · exact ha (h.focused_installed rfl t ht)
      · cases hpe : t.pending_focused_surface with
        | none => exact ha hpe
        | some s => simp [hpe] at hp
    | some q =>
      obtain ⟨i, ti⟩ := q
      obtain ⟨hi, hp, _⟩ := find_if_some hf
      cases hpe : ti.pending_focused_surface with
      | none => simp [hpe] at hp
      | some s =>
        simp only [input_method_relay.on_input_method_new, him, hf, hpe,
          wlr_text_input_v3_send_enter, text_input.set_pending_focused_surface]
        have hcl : s.client = ti.input.client :=
          h.pending_client ti (List.getElem?_mem hi) s hpe
        refine focus_inv_set true hi (Or.inr (by simp [hpe])) rfl ?_ ?_ ?_ ?_ h
        · intro s1 hs1
          simp only [Option.some.injEq] at hs1
          subst hs1
          exact hcl
        · intro s1 hs1
          cases hs1
        · intro hb
          cases hb
        · intro _
          rfl

theorem focus_inv_on_input_method_destroy (r r1 : input_method_relay)
    (im : wlr_input_method_v2) (msgs : List Msg)
    (hd : r.on_input_method_destroy im = some (r1, msgs))
    (h : focus_inv r.text_inputs r.input_method.isSome) :
    r1.input_method = none ∧ focus_inv r1.text_inputs false := by
  unfold input_method_relay.on_input_method_destroy at hd
  by_cases him : r.input_method = some im
  · rw [him] at h
    simp only [him, ne_eq, not_true_eq_false, if_false] at hd
    cases hf : input_method_relay.find_focused_text_input
        { r with input_method := none, keyboard_grab := none } with
    | none =>
      simp only [hf, Option.some.injEq, Prod.mk.injEq] at hd
      obtain ⟨rfl, _⟩ := hd
      refine ⟨rfl, focus_inv_inactive false ?_ h⟩
      intro t ht hact
      have hp := find_if_none hf t ht
      rcases hact with ha | ha
      · cases hpe : t.input.focused_surface with
        | none => exact ha hpe
        | some s => simp [hpe] at hp
      · exact ha (h.pending_absent rfl t ht)
    | some q =>
      obtain ⟨i, ti⟩ := q
      obtain ⟨hi, hp, _⟩ := find_if_some hf
      simp only [hf, wlr_text_input_v3_send_leave, text_input.set_pending_focused_surface,
        Option.some.injEq, Prod.mk.injEq] at hd
      obtain ⟨rfl, _⟩ := hd
      refine ⟨rfl, ?_⟩
      have hact : ti.active := by
        left
        intro e
        simp [e] at hp
      refine focus_inv_set false hi hact rfl ?_ ?_ ?_ ?_ h
      · intro s1 hs1
        cases hs1
      · intro s1 hs1
        exact h.focused_client ti (List.getElem?_mem hi) s1 hs1
      · intro _
        rfl
      · intro hb
        cases hb
  · simp [him] at hd

theorem focus_inv_wlr_text_input_commit (addr : Nat) (state : wlr_text_input_v3_state)
    (enabled : Bool) {l : List text_input} {b : Bool} (h : focus_inv l b) :
    focus_inv (wlr_text_input_commit addr state enabled l) b := by
  unfold wlr_text_input_commit
  refine focus_inv_map _ ?_ ?_ ?_ h
  · intro t
    split <;> rfl
  · intro t
    left
    split <;> rfl
  · intro t
    left
    split <;> rfl

theorem on_text_input_enable_state (r : input_method_relay) (input : wlr_text_input_v3) :
    (r.on_text_input_enable input).1 = r := by
  unfold input_method_relay.on_text_input_enable
  split <;> rfl

theorem on_text_input_commit_state (views : wlr_surface → view_info) (r : input_method_relay)
    (input : wlr_text_input_v3) :
    (input_method_relay.on_text_input_commit views r input).1.text_inputs = r.text_inputs ∧
    (input_method_relay.on_text_input_commit views r input).1.input_method = r.input_method := by
  unfold input_method_relay.on_text_input_commit
  split
  · exact ⟨rfl, rfl⟩
  · split <;> exact ⟨rfl, rfl⟩

theorem focus_inv_on_text_input_destroy (r : input_method_relay) (input : wlr_text_input_v3)
    (h : focus_inv r.text_inputs r.input_method.isSome) :
    focus_inv (r.on_text_input_destroy input).1.text_inputs
      (r.on_text_input_destroy input).1.input_method.isSome := by
  simp only [input_method_relay.on_text_input_destroy, input_method_relay.remove_text_input]
  refine focus_inv_filter _ (focus_inv_map _ ?_ ?_ ?_ h)
  · intro t
    split <;> rfl
  · intro t
    left
    split <;> rfl
  · intro t
    split
    · right
      rfl
    · left
      rfl

theorem step_focus_inv (r r1 : input_method_relay) (e : Event) (msgs : List Msg)
    (h : focus_inv r.text_inputs r.input_method.isSome)
    (hadm : one_text_input_per_client r e = true)
    (hs : step r e = some (r1, msgs)) :
    focus_inv r1.text_inputs r1.input_method.isSome := by
  cases e with
  | text_input_new addr client =>
    simp only [step, input_method_relay.on_text_input_new, Option.some.injEq,
      Prod.mk.injEq] at hs
    obtain ⟨rfl, _⟩ := hs
    refine focus_inv_append _ rfl rfl ?_ h
    intro t ht
    simp only [one_text_input_per_client, List.all_eq_true] at hadm
    simpa using hadm t ht
  | text_input_enable addr state =>
    simp only [step] at hs
    split at hs
    · simp only [Option.some.injEq, Prod.mk.injEq] at hs
      obtain ⟨rfl, _⟩ := hs
      exact h
    · simp only [Option.some.injEq] at hs
      have e1 := congrArg Prod.fst hs
      rw [on_text_input_enable_state] at e1
      simp only at e1
      subst e1
      exact focus_inv_wlr_text_input_commit addr state true h
  | text_input_commit addr state views =>
    simp only [step] at hs
    split at hs
    · simp only [Option.some.injEq, Prod.mk.injEq] at hs
      obtain ⟨rfl, _⟩ := hs
      exact h
    · split at hs
      · simp only [Option.some.injEq, Prod.mk.injEq] at hs
        obtain ⟨rfl, _⟩ := hs
        exact h
      · simp only [Option.some.injEq] at hs
        have e1 := congrArg Prod.fst hs
        simp only at e1
        subst e1
        rw [(on_text_input_commit_state _ _ _).1, (on_text_input_commit_state _ _ _).2]
        exact focus_inv_wlr_text_input_commit addr state _ h
  | text_input_disable addr state =>
    simp only [step] at hs
    split at hs
    · simp only [Option.some.injEq, Prod.mk.injEq] at hs
      obtain ⟨rfl, _⟩ := hs
      exact h
    · simp only [input_method_relay.on_text_input_disable, Option.some.injEq,
        Prod.mk.injEq] at hs
      obtain ⟨rfl, _⟩ := hs
      exact focus_inv_wlr_text_input_commit addr state false h
  | text_input_destroy addr =>
    simp only [step] at hs
    split at hs
    · simp only [Option.some.injEq, Prod.mk.injEq] at hs
      obtain ⟨rfl, _⟩ := hs
      exact h
    · simp only [Option.some.injEq] at hs
      have e1 := congrArg Prod.fst hs
      simp only at e1
      subst e1
      exact focus_inv_on_text_input_destroy r _ h
  | input_method_new addr client =>
    simp only [step, Option.some.injEq] at hs
    have e1 := congrArg Prod.fst hs
    simp only at e1
    subst e1
    exact focus_inv_on_input_method_new r _ h
  | input_method_commit state =>
    simp only [step] at hs
    split at hs
    · simp only [Option.some.injEq, Prod.mk.injEq] at hs
      obtain ⟨rfl, _⟩ := hs
      exact h
    · rename_i im him
      unfold input_method_relay.on_input_method_commit at hs
      simp only [ne_eq, not_true_eq_false, if_false] at hs
      split at hs <;>
        (simp only [Option.some.injEq, Prod.mk.injEq] at hs
         obtain ⟨rfl, _⟩ := hs
         simpa [him] using h)
  | input_method_destroy =>
    simp only [step] at hs
    split at hs
    · simp only [Option.some.injEq, Prod.mk.injEq] at hs
      obtain ⟨rfl, _⟩ := hs
      exact h
    · obtain ⟨h1, h2⟩ := focus_inv_on_input_method_destroy r r1 _ msgs hs h
      simpa [h1] using h2
  | grab_keyboard grab =>
    simp only [step] at hs
    split at hs
    · simp only [Option.some.injEq, Prod.mk.injEq] at hs
      obtain ⟨rfl, _⟩ := hs
      exact h
    · rename_i im him
      unfold input_method_relay.on_grab_keyboard at hs
      split at hs <;>
        (simp only [Option.some.injEq, Prod.mk.injEq] at hs
         obtain ⟨rfl, _⟩ := hs
         simpa [him] using h)
  | grab_keyboard_destroy =>
    simp only [step] at hs
    split at hs
    · simp only [Option.some.injEq, Prod.mk.injEq] at hs
      obtain ⟨rfl, _⟩ := hs
      exact h
    · simp only [input_method_relay.on_grab_keyboard_destroy, Option.some.injEq,
        Prod.mk.injEq] at hs
      obtain ⟨rfl, _⟩ := hs
      simpa using h
  | set_focus surface =>
    simp only [step, input_method_relay.set_focus] at hs
    split at hs
    · cases hs
    · rename_i tis ms hl
      simp only [Option.some.injEq, Prod.mk.injEq] at hs
      obtain ⟨rfl, _⟩ := hs
      exact focus_inv_set_focus hl h

theorem reachable_single_focus_inv {r : input_method_relay} (h : ReachableSingle r) :
    focus_inv r.text_inputs r.input_method.isSome := by
  induction h with
  | empty => exact focus_inv_nil _
  | step r r1 e msgs _ hadm hs ih => exact step_focus_inv r r1 e msgs ih hadm hs

theorem index_eq_of_nodup_clients {l : List text_input} {i j : Nat} {t u : text_input}
    (hnd : (l.map (fun t => t.input.client)).Nodup) (hi : l[i]? = some t)
    (hj : l[j]? = some u) (hc : t.input.client = u.input.client) : i = j := by
  have hil : i < l.length := (List.getElem?_eq_some_iff.mp hi).1
  have hjl : j < l.length := (List.getElem?_eq_some_iff.mp hj).1
  have e1 : (l.map (fun t => t.input.client))[i]? = some t.input.client := by simp [hi]
  have e2 : (l.map (fun t => t.input.client))[j]? = some t.input.client := by simp [hj, hc]
  rcases Nat.lt_trichotomy i j with hlt | heq | hgt
  · exact absurd (e1.trans e2.symm)
      (List.nodup_iff_getElem?_ne_getElem?.mp hnd i j hlt (by simpa using hjl))
  · exact heq
  · exact absurd (e2.trans e1.symm)
      (List.nodup_iff_getElem?_ne_getElem?.mp hnd j i hgt (by simpa using hil))

/-! ## C5: focus exclusivity -/

/-- C5 as stated fails. After a client has created two text inputs, the input method
has connected and a surface of that client has got the keyboard focus, both text
inputs are focused; and after the destroy event of the input method the second one is
still focused although no input method is installed. -/
theorem focus_not_exclusive :
    run input_method_relay.empty events_two_focused =
      some (relay_two_focused,
        [Msg.text_input_send_enter 1 surface_a, Msg.text_input_send_enter 2 surface_a]) ∧
    relay_two_focused.text_inputs.map (fun t => t.input.focused_surface) =
      [some surface_a, some surface_a] ∧
    (run input_method_relay.empty (events_two_focused ++ [Event.input_method_destroy])).map
        (fun p => (p.1.input_method, p.1.text_inputs.map (fun t => t.input.focused_surface))) =
      some (none, [none, some surface_a]) := by
  decide

/-- C5, amended. In every state reached from the empty relay by events (text-input
connect, enable, commit, disable and destroy, service connect, commit and destroy,
keyboard grab and its destruction, set_focus) during which no client connection has
two text inputs at a time: at most one text input is focused, a text input is focused
only while an input method is installed, and the destroy handler of the input method
leaves no input method and no focused text input. -/
theorem focus_exclusive_single (r : input_method_relay) (h : ReachableSingle r) :
    (∀ (i j : Nat) (t u : text_input), r.text_inputs[i]? = some t → r.text_inputs[j]? = some u →
      t.input.focused_surface ≠ none → u.input.focused_surface ≠ none → i = j) ∧
    (∀ t ∈ r.text_inputs, t.input.focused_surface ≠ none → r.input_method ≠ none) ∧
    (∀ (im : wlr_input_method_v2) (r1 : input_method_relay) (msgs : List Msg),
      r.on_input_method_destroy im = some (r1, msgs) →
      r1.input_method = none ∧ ∀ t ∈ r1.text_inputs, t.input.focused_surface = none) := by
  have hinv := reachable_single_focus_inv h
  refine ⟨?_, ?_, ?_⟩
  · intro i j t u hi hj ht hu
    exact index_eq_of_nodup_clients hinv.clients_nodup hi hj
      (hinv.one_client t (List.getElem?_mem hi) u (List.getElem?_mem hj) (Or.inl ht) (Or.inl hu))
  · intro t ht hf him
    exact hf (hinv.focused_installed (by simp [him]) t ht)
  · intro im r1 msgs hd
    obtain ⟨h1, h2⟩ := focus_inv_on_input_method_destroy r r1 im msgs hd hinv
    exact ⟨h1, h2.focused_installed rfl⟩

/-- C5, amended, at the relay reached by one text input connecting, the input method
connecting and a surface of the client getting the focus: the destroy handler leaves
the text input unfocused. -/
theorem focus_exclusive_single_witness :
    ReachableSingle relay_one_focused ∧
    ∀ (r1 : input_method_relay) (msgs : List Msg),
      relay_one_focused.on_input_method_destroy im_a = some (r1, msgs) →
      r1.input_method = none ∧ ∀ t ∈ r1.text_inputs, t.input.focused_surface = none :=
  have h1 : ReachableSingle relay_one_idle :=
    ReachableSingle.step input_method_relay.empty relay_one_idle (Event.text_input_new 1 7) []
      ReachableSingle.empty rfl rfl
  have h2 : ReachableSingle relay_one_idle_im :=
    ReachableSingle.step relay_one_idle relay_one_idle_im (Event.input_method_new 50 9) []
      h1 rfl rfl
  have h3 : ReachableSingle relay_one_focused :=
    ReachableSingle.step relay_one_idle_im relay_one_focused (Event.set_focus (some surface_a))
      [Msg.text_input_send_enter 1 surface_a] h2 rfl rfl
  ⟨h3, (focus_exclusive_single relay_one_focused h3).2.2 im_a⟩

/-! ## The loop of `set_focus`, one text input at a time -/

theorem set_focus_body_total (im : Option wlr_input_method_v2) (target : Option wlr_surface)
    (t : text_input)
    (hok : t.pending_focused_surface = none ∨ t.input.focused_surface = none) :
    ∃ t1 m, set_focus_body im target t = some (t1, m) := by
  unfold set_focus_body
  rcases hok with h | h
  · rw [h]
    simp only
    split
    · split
      · exact ⟨_, _, rfl⟩
      · exact ⟨_, _, rfl⟩
    · exact ⟨_, _, rfl⟩
  · rw [h]
    split
    · simp only [ne_eq, not_true_eq_false, if_false]
      split
      · exact ⟨_, _, rfl⟩
      · exact ⟨_, _, rfl⟩
    · simp only
      exact ⟨_, _, rfl⟩

theorem set_focus_loop_total (im : Option wlr_input_method_v2) (target : Option wlr_surface)
    (l : List text_input)
    (hok : ∀ u ∈ l, u.pending_focused_surface = none ∨ u.input.focused_surface = none) :
    ∃ l1 m, set_focus_loop im target l = some (l1, m) := by
  induction l with
  | nil => exact ⟨[], [], rfl⟩
  | cons a as ih =>
    obtain ⟨a1, ma, ha⟩ := set_focus_body_total im target a (hok a (List.mem_cons_self _ _))
    obtain ⟨as1, ms, hl⟩ := ih (fun u hu => hok u (List.mem_cons_of_mem _ hu))
    exact ⟨a1 :: as1, ma ++ ms, by simp [set_focus_loop, ha, hl]⟩

theorem set_focus_loop_at {im : Option wlr_input_method_v2} {target : Option wlr_surface}
    {l l1 : List text_input} {m : List Msg} {i : Nat} {t : text_input}
    (h : set_focus_loop im target l = some (l1, m)) (hi : l[i]? = some t) :
    ∃ (t1 : text_input) (mi : List Msg) (l_pre : List text_input) (pre : List Msg)
      (l_post : List text_input) (post : List Msg),
      set_focus_body im target t = some (t1, mi) ∧ l1[i]? = some t1 ∧
      set_focus_loop im target (l.take i) = some (l_pre, pre) ∧
      set_focus_loop im target (l.drop (i + 1)) = some (l_post, post) ∧
      m = pre ++ mi ++ post := by
  induction l generalizing l1 m i with
  | nil => simp at hi
  | cons a as ih =>
    unfold set_focus_loop at h
    cases hb : set_focus_body im target a with
    | none => simp [hb] at h
    | some q =>
      obtain ⟨a1, ma⟩ := q
      cases hl : set_focus_loop im target as with
      | none => simp [hb, hl] at h
      | some q2 =>
        obtain ⟨as1, ms⟩ := q2
        simp only [hb, hl, Option.some.injEq, Prod.mk.injEq] at h
        obtain ⟨rfl, rfl⟩ := h
        cases i with
        | zero =>
          simp only [List.getElem?_cons_zero, Option.some.injEq] at hi
          subst hi
          exact ⟨a1, ma, [], [], as1, ms, hb, by simp, by simp [set_focus_loop],
            by simpa using hl, by simp⟩
        | succ k =>
          simp only [List.getElem?_cons_succ] at hi
          obtain ⟨t1, mi, l_pre, pre, l_post, post, h1, h2, h3, h4, h5⟩ := ih hl hi
          refine ⟨t1, mi, a1 :: l_pre, ma ++ pre, l_post, post, h1, by simpa using h2, ?_,
            by simpa using h4, by simp [h5]⟩
          simp [set_focus_loop, hb, h3]

/-! ## C6: focus routing away from a focused text input -/

/-- C6 as stated fails. The relay `relay_orphan_focused` is reached from the empty
relay; its second text input is focused on `surface_a` and no input method is
installed; `set_focus` to another surface sends that text input `leave`, and neither
`deactivate` nor the state snapshot goes anywhere. -/
theorem set_focus_leave_without_deactivate :
    (run input_method_relay.empty (events_two_focused ++ [Event.input_method_destroy])).map
        (fun p => p.1) = some relay_orphan_focused ∧
    relay_orphan_focused.text_inputs[1]? = some (wrapper_at 2 (some surface_a) none) ∧
    surface_b ≠ surface_a ∧
    relay_orphan_focused.set_focus (some surface_b) =
      some ({ text_inputs :=
                [wrapper_at 1 none (some surface_b), wrapper_at 2 none (some surface_b)],
              input_method := none, keyboard_grab := none, popup_surfaces := [] },
        [Msg.text_input_send_leave 2]) := by
  decide

theorem set_focus_body_away (im : Option wlr_input_method_v2) (target : Option wlr_surface)
    (t t1 : text_input) (mi : List Msg) (s : wlr_surface)
    (hb : set_focus_body im target t = some (t1, mi))
    (hf : t.input.focused_surface = some s)
    (hp : t.pending_focused_surface = none) :
    (target = some s → t1 = t ∧ mi = []) ∧
    (target ≠ some s →
      t1.input.focused_surface ≠ some s ∧
      (∀ x, im = some x →
        mi = [Msg.input_method_send_deactivate x.addr,
              Msg.input_method_send_surrounding_text x.addr t.input.current.surrounding.text
                t.input.current.surrounding.cursor t.input.current.surrounding.anchor,
              Msg.input_method_send_text_change_cause x.addr t.input.current.text_change_cause,
              Msg.input_method_send_content_type x.addr t.input.current.content_type.hint
                t.input.current.content_type.purpose,
              Msg.input_method_send_done x.addr,
              Msg.text_input_send_leave t.input.addr] ++ enter_for_target t target) ∧
      (im = none → mi = [Msg.text_input_send_leave t.input.addr])) := by
  constructor
  · intro ht
    subst ht
    simp only [set_focus_body, hp, hf, ne_eq, not_true_eq_false, if_false,
      Option.some.injEq, Prod.mk.injEq] at hb
    exact ⟨hb.1.symm, hb.2.symm⟩
  · intro hne
    obtain ⟨⟨addr, client, focused, cur, en⟩, pending⟩ := t
    simp only at hf hp
    subst hf hp
    cases target <;> cases im <;>
      simp [set_focus_body, set_focus_enter, wlr_text_input_v3_send_enter,
        wlr_text_input_v3_send_leave, text_input.set_pending_focused_surface,
        disable_text_input, send_im_state, enter_for_target] at hb hne ⊢
    all_goals (repeat' split at hb)
    all_goals (obtain ⟨rfl, rfl⟩ := hb; simp_all)

/-- C6, amended. Let the text input at position `i` be focused on `s` when
`set_focus target` runs, no text input having both a pending and a focused surface.
Then `set_focus` returns, and its trace is the trace of the text inputs before it, then the messages `mi` for it, then the trace of those
after it. If `target` is `s`, the text input is unchanged and `mi` is empty. If
`target` differs from `s`, the text input is no longer focused on `s`, and `mi` is:
with an input method installed, `deactivate`, `surrounding-text`, `text-change-cause`,
`content-type`, `done` to the input method, then `leave` to the text input, then
`enter` for the target when the target is of the same client; with no input method
installed, only `leave`. -/
theorem set_focus_away (r : input_method_relay) (target : Option wlr_surface)
    (i : Nat) (t : text_input) (s : wlr_surface)
    (hok : ∀ u ∈ r.text_inputs,
      u.pending_focused_surface = none ∨ u.input.focused_surface = none)
    (hi : r.text_inputs[i]? = some t)
    (hf : t.input.focused_surface = some s) :
    ∃ (r1 : input_method_relay) (msgs : List Msg) (t1 : text_input) (mi : List Msg)
      (l_pre : List text_input) (pre : List Msg) (l_post : List text_input) (post : List Msg),
      r.set_focus target = some (r1, msgs) ∧
      r1.text_inputs[i]? = some t1 ∧
      set_focus_loop r.input_method target (r.text_inputs.take i) = some (l_pre, pre) ∧
      set_focus_loop r.input_method target (r.text_inputs.drop (i + 1)) = some (l_post, post) ∧
      msgs = pre ++ mi ++ post ∧
      (target = some s → t1 = t ∧ mi = []) ∧
      (target ≠ some s →
        t1.input.focused_surface ≠ some s ∧
        (∀ im, r.input_method = some im →
          mi = [Msg.input_method_send_deactivate im.addr,
                Msg.input_method_send_surrounding_text im.addr t.input.current.surrounding.text
                  t.input.current.surrounding.cursor t.input.current.surrounding.anchor,
                Msg.input_method_send_text_change_cause im.addr t.input.current.text_change_cause,
                Msg.input_method_send_content_type im.addr t.input.current.content_type.hint
                  t.input.current.content_type.purpose,
                Msg.input_method_send_done im.addr,
                Msg.text_input_send_leave t.input.addr] ++
               enter_for_target t target) ∧
        (r.input_method = none → mi = [Msg.text_input_send_leave t.input.addr])) := by
  have hp : t.pending_focused_surface = none := by
    rcases hok t (List.getElem?_mem hi) with h | h
    · exact h
    · rw [h] at hf
      cases hf
  obtain ⟨tis, ms, hl⟩ := set_focus_loop_total r.input_method target r.text_inputs hok
  obtain ⟨t1, mi, l_pre, pre, l_post, post, hb, h2, h3, h4, h5⟩ := set_focus_loop_at hl hi
  obtain ⟨g1, g2⟩ := set_focus_body_away r.input_method target t t1 mi s hb hf hp
  exact ⟨{ r with text_inputs := tis }, ms, t1, mi, l_pre, pre, l_post, post,
    by simp [input_method_relay.set_focus, hl], h2, h3, h4, h5, g1, g2⟩

/-- C6, amended, at the relay with one text input focused on `surface_a` and `im_a`
installed, when the focus goes to `surface_b` of the same client. -/
theorem set_focus_away_witness :
    relay_one_focused.set_focus (some surface_b) =
      some (relay_b_focused,
        [Msg.input_method_send_deactivate 50,
         Msg.input_method_send_surrounding_text 50 none 0 0,
         Msg.input_method_send_text_change_cause 50 0,
         Msg.input_method_send_content_type 50 0 0,
         Msg.input_method_send_done 50,
         Msg.text_input_send_leave 1,
         Msg.text_input_send_enter 1 surface_b]) ∧
    ∃ (t1 : text_input) (mi : List Msg),
      relay_b_focused.text_inputs[0]? = some t1 ∧
      t1.input.focused_surface ≠ some surface_a ∧
      mi = [Msg.input_method_send_deactivate 50,
            Msg.input_method_send_surrounding_text 50 none 0 0,
            Msg.input_method_send_text_change_cause 50 0,
            Msg.input_method_send_content_type 50 0 0,
            Msg.input_method_send_done 50,
            Msg.text_input_send_leave 1] ++
           enter_for_target (wrapper_at 1 (some surface_a) none) (some surface_b) := by
  have hsf : relay_one_focused.set_focus (some surface_b) =
      some (relay_b_focused,
        [Msg.input_method_send_deactivate 50,
         Msg.input_method_send_surrounding_text 50 none 0 0,
         Msg.input_method_send_text_change_cause 50 0,
         Msg.input_method_send_content_type 50 0 0,
         Msg.input_method_send_done 50,
         Msg.text_input_send_leave 1,
         Msg.text_input_send_enter 1 surface_b]) := by decide
  obtain ⟨r1, msgs, t1, mi, _, _, _, _, h0, h1, _, _, _, _, h6⟩ :=
    set_focus_away relay_one_focused (some surface_b) 0
      (wrapper_at 1 (some surface_a) none) surface_a (by decide) rfl rfl
  rw [hsf] at h0
  simp only [Option.some.injEq, Prod.mk.injEq] at h0
  obtain ⟨rfl, _⟩ := h0
  exact ⟨hsf, t1, mi, h1, (h6 (by decide)).1, (h6 (by decide)).2.1 im_a rfl⟩

/-! ## Surfaces and clients in reachable states -/

theorem set_focus_body_own_client (im : Option wlr_input_method_v2)
    (target : Option wlr_surface) (t t1 : text_input) (m : List Msg)
    (hb : set_focus_body im target t = some (t1, m))
    (h1 : ∀ s, t.input.focused_surface = some s → s.client = t.input.client)
    (h2 : ∀ s, t.pending_focused_surface = some s → s.client = t.input.client) :
    (∀ s, t1.input.focused_surface = some s → s.client = t1.input.client) ∧
    (∀ s, t1.pending_focused_surface = some s → s.client = t1.input.client) := by
  obtain ⟨⟨addr, client, focused, cur, en⟩, pending⟩ := t
  cases pending <;> cases focused <;> cases target <;> cases im <;>
    simp [set_focus_body, set_focus_enter, wlr_text_input_v3_send_enter,
      wlr_text_input_v3_send_leave, text_input.set_pending_focused_surface] at hb h1 h2 ⊢
  all_goals (repeat' split at hb)
  all_goals (obtain ⟨rfl, _⟩ := hb; simp_all)

theorem own_client_map {l : List text_input} (f : text_input → text_input)
    (hc : ∀ t, (f t).input.client = t.input.client)
    (hf : ∀ t, (f t).input.focused_surface = t.input.focused_surface ∨
      (f t).input.focused_surface = none)
    (hp : ∀ t, (f t).pending_focused_surface = t.pending_focused_surface ∨
      (f t).pending_focused_surface = none)
    (h : surfaces_of_own_client l) : surfaces_of_own_client (l.map f) := by
  constructor
  · intro t ht s hs
    obtain ⟨t0, ht0, rfl⟩ := List.mem_map.mp ht
    rw [hc]
    rcases hf t0 with e | e
    · exact h.1 t0 ht0 s (e ▸ hs)
    · rw [e] at hs; cases hs
  · intro t ht s hs
    obtain ⟨t0, ht0, rfl⟩ := List.mem_map.mp ht
    rw [hc]
    rcases hp t0 with e | e
    · exact h.2 t0 ht0 s (e ▸ hs)
    · rw [e] at hs; cases hs

theorem own_client_set {l : List text_input} {i : Nat} {t1 : text_input}
    (h1 : ∀ s, t1.input.focused_surface = some s → s.client = t1.input.client)
    (h2 : ∀ s, t1.pending_focused_surface = some s → s.client = t1.input.client)
    (h : surfaces_of_own_client l) : surfaces_of_own_client (l.set i t1) := by
  constructor
  · intro t ht s hs
    rcases List.mem_or_eq_of_mem_set ht with hm | rfl
    · exact h.1 t hm s hs
    · exact h1 s hs
  · intro t ht s hs
    rcases List.mem_or_eq_of_mem_set ht with hm | rfl
    · exact h.2 t hm s hs
    · exact h2 s hs

theorem own_client_wlr_text_input_commit (addr : Nat) (state : wlr_text_input_v3_state)
    (enabled : Bool) {l : List text_input} (h : surfaces_of_own_client l) :
    surfaces_of_own_client (wlr_text_input_commit addr state enabled l) := by
  unfold wlr_text_input_commit
  refine own_client_map _ ?_ ?_ ?_ h
  · intro t
    split <;> rfl
  · intro t
    left
    split <;> rfl
  · intro t
    left
    split <;> rfl

theorem own_client_filter {l : List text_input} (p : text_input → Bool)
    (h : surfaces_of_own_client l) : surfaces_of_own_client (l.filter p) :=
  ⟨fun t ht => h.1 t (List.mem_filter.mp ht).1, fun t ht => h.2 t (List.mem_filter.mp ht).1⟩

theorem own_client_on_text_input_destroy (r : input_method_relay) (input : wlr_text_input_v3)
    (h : surfaces_of_own_client r.text_inputs) :
    surfaces_of_own_client (r.on_text_input_destroy input).1.text_inputs := by
  simp only [input_method_relay.on_text_input_destroy, input_method_relay.remove_text_input]
  refine own_client_filter _ (own_client_map _ ?_ ?_ ?_ h)
  · intro t
    split <;> rfl
  · intro t
    left
    split <;> rfl
  · intro t
    split
    · right
      rfl
    · left
      rfl

theorem own_client_on_input_method_new (r : input_method_relay) (im : wlr_input_method_v2)
    (h : surfaces_of_own_client r.text_inputs) :
    surfaces_of_own_client (r.on_input_method_new im).1.text_inputs := by
  cases him : r.input_method with
  | some old =>
    simp only [input_method_relay.on_input_method_new, him]
    exact h
  | none =>
    cases hf : input_method_relay.find_focusable_text_input
        { r with input_method := some im } with
    | none =>
      simp only [input_method_relay.on_input_method_new, him, hf]
      exact h
    | some q =>
      obtain ⟨i, ti⟩ := q
      obtain ⟨hi, _, _⟩ := find_if_some hf
      cases hpe : ti.pending_focused_surface with
      | none =>
        simp only [input_method_relay.on_input_method_new, him, hf, hpe]
        exact h
      | some s =>
        simp only [input_method_relay.on_input_method_new, him, hf, hpe,
          wlr_text_input_v3_send_enter, text_input.set_pending_focused_surface]
        refine own_client_set ?_ ?_ h
        · intro s1 hs1
          simp only [Option.some.injEq] at hs1
          subst hs1
          exact h.2 ti (List.getElem?_mem hi) _ hpe
        · intro s1 hs1
          cases hs1

theorem own_client_on_input_method_destroy (r r1 : input_method_relay)
    (im : wlr_input_method_v2) (msgs : List Msg)
    (hd : r.on_input_method_destroy im = some (r1, msgs))
    (h : surfaces_of_own_client r.text_inputs) : surfaces_of_own_client r1.text_inputs := by
  unfold input_method_relay.on_input_method_destroy at hd
  by_cases him : r.input_method = some im
  · simp only [him, ne_eq, not_true_eq_false, if_false] at hd
    cases hf : input_method_relay.find_focused_text_input
        { r with input_method := none, keyboard_grab := none } with
    | none =>
      simp only [hf, Option.some.injEq, Prod.mk.injEq] at hd
      obtain ⟨rfl, _⟩ := hd
      exact h
    | some q =>
      obtain ⟨i, ti⟩ := q
      obtain ⟨hi, _, _⟩ := find_if_some hf
      simp only [hf, wlr_text_input_v3_send_leave, text_input.set_pending_focused_surface,
        Option.some.injEq, Prod.mk.injEq] at hd
      obtain ⟨rfl, _⟩ := hd
      refine own_client_set ?_ ?_ h
      · intro s1 hs1
        cases hs1
      · intro s1 hs1
        exact h.1 ti (List.getElem?_mem hi) s1 hs1
  · simp [him] at hd

theorem step_own_client (r r1 : input_method_relay) (e : Event) (msgs : List Msg)
    (h : surfaces_of_own_client r.text_inputs) (hs : step r e = some (r1, msgs)) :
    surfaces_of_own_client r1.text_inputs := by
  cases e with
  | text_input_new addr client =>
    simp only [step, input_method_relay.on_text_input_new, Option.some.injEq,
      Prod.mk.injEq] at hs
    obtain ⟨rfl, _⟩ := hs
    constructor
    · intro t ht s hfs
      rcases List.mem_append.mp ht with hm | hm
      · exact h.1 t hm s hfs
      · simp only [List.mem_singleton] at hm
        subst hm
        cases hfs
    · intro t ht s hps
      rcases List.mem_append.mp ht with hm | hm
      · exact h.2 t hm s hps
      · simp only [List.mem_singleton] at hm
        subst hm
        cases hps
  | text_input_enable addr state =>
    simp only [step] at hs
    split at hs
    · simp only [Option.some.injEq, Prod.mk.injEq] at hs
      obtain ⟨rfl, _⟩ := hs
      exact h
    · simp only [Option.some.injEq] at hs
      have e1 := congrArg Prod.fst hs
      rw [on_text_input_enable_state] at e1
      simp only at e1
      subst e1
      exact own_client_wlr_text_input_commit addr state true h
  | text_input_commit addr state views =>
    simp only [step] at hs
    split at hs
    · simp only [Option.some.injEq, Prod.mk.injEq] at hs
      obtain ⟨rfl, _⟩ := hs
      exact h
    · split at hs
      · simp only [Option.some.injEq, Prod.mk.injEq] at hs
        obtain ⟨rfl, _⟩ := hs
        exact h
      · simp only [Option.some.injEq] at hs
        have e1 := congrArg Prod.fst hs
        simp only at e1
        subst e1
        rw [(on_text_input_commit_state _ _ _).1]
        exact own_client_wlr_text_input_commit addr state _ h
  | text_input_disable addr state =>
    simp only [step] at hs
    split at hs
    · simp only [Option.some.injEq, Prod.mk.injEq] at hs
      obtain ⟨rfl, _⟩ := hs
      exact h
    · simp only [input_method_relay.on_text_input_disable, Option.some.injEq,
        Prod.mk.injEq] at hs
      obtain ⟨rfl, _⟩ := hs
      exact own_client_wlr_text_input_commit addr state false h
  | text_input_destroy addr =>
    simp only [step] at hs
    split at hs
    · simp only [Option.some.injEq, Prod.mk.injEq] at hs
      obtain ⟨rfl, _⟩ := hs
      exact h
    · simp only [Option.some.injEq] at hs
      have e1 := congrArg Prod.fst hs
      simp only at e1
      subst e1
      exact own_client_on_text_input_destroy r _ h
  | input_method_new addr client =>
    simp only [step, Option.some.injEq] at hs
    have e1 := congrArg Prod.fst hs
    simp only at e1
    subst e1
    exact own_client_on_input_method_new r _ h
  | input_method_commit state =>
    simp only [step] at hs
    split at hs
    · simp only [Option.some.injEq, Prod.mk.injEq] at hs
      obtain ⟨rfl, _⟩ := hs
      exact h
    · unfold input_method_relay.on_input_method_commit at hs
      simp only [ne_eq, not_true_eq_false, if_false] at hs
      split at hs <;>
        (simp only [Option.some.injEq, Prod.mk.injEq] at hs
         obtain ⟨rfl, _⟩ := hs
         exact h)
  | input_method_destroy =>
    simp only [step] at hs
    split at hs
    · simp only [Option.some.injEq, Prod.mk.injEq] at hs
      obtain ⟨rfl, _⟩ := hs
      exact h
    · exact own_client_on_input_method_destroy r r1 _ msgs hs h
  | grab_keyboard grab =>
    simp only [step] at hs
    split at hs
    · simp only [Option.some.injEq, Prod.mk.injEq] at hs
      obtain ⟨rfl, _⟩ := hs
      exact h
    · unfold input_method_relay.on_grab_keyboard at hs
      split at hs <;>
        (simp only [Option.some.injEq, Prod.mk.injEq] at hs
         obtain ⟨rfl, _⟩ := hs
         exact h)
  | grab_keyboard_destroy =>
    simp only [step] at hs
    split at hs
    · simp only [Option.some.injEq, Prod.mk.injEq] at hs
      obtain ⟨rfl, _⟩ := hs
      exact h
    · simp only [input_method_relay.on_grab_keyboard_destroy, Option.some.injEq,
        Prod.mk.injEq] at hs
      obtain ⟨rfl, _⟩ := hs
      exact h
  | set_focus surface =>
    simp only [step, input_method_relay.set_focus] at hs
    split at hs
    · cases hs
    · rename_i tis ms hl
      simp only [Option.some.injEq, Prod.mk.injEq] at hs
      obtain ⟨rfl, _⟩ := hs
      constructor
      · intro t1 ht1
        obtain ⟨t, ht, m1, hb⟩ := set_focus_loop_mem hl t1 ht1
        exact (set_focus_body_own_client _ _ t t1 m1 hb (h.1 t ht) (h.2 t ht)).1
      · intro t1 ht1
        obtain ⟨t, ht, m1, hb⟩ := set_focus_loop_mem hl t1 ht1
        exact (set_focus_body_own_client _ _ t t1 m1 hb (h.1 t ht) (h.2 t ht)).2

theorem reachable_own_client {r : input_method_relay} (h : Reachable r) :
    surfaces_of_own_client r.text_inputs := by
  induction h with
  | empty => exact ⟨by simp [input_method_relay.empty], by simp [input_method_relay.empty]⟩
  | step r r1 e msgs _ hs ih => exact step_own_client r r1 e msgs ih hs

/-! ## C7: focus routing to the target -/

theorem set_focus_body_target (im : Option wlr_input_method_v2) (target : Option wlr_surface)
    (t t1 : text_input) (mi : List Msg)
    (hb : set_focus_body im target t = some (t1, mi))
    (hnf : ∀ s, target = some s → t.input.focused_surface ≠ some s)
    (hpc : ∀ p, t.pending_focused_surface = some p → p.client = t.input.client) :
    (∀ s, target = some s → s.client = t.input.client →
      (∀ x, im = some x → t.pending_focused_surface ≠ some s →
        t1.input.focused_surface = some s ∧ t1.pending_focused_surface = none ∧
        (t.input.focused_surface = none → mi = [Msg.text_input_send_enter t.input.addr s]) ∧
        (t.input.focused_surface ≠ none →
          mi = Msg.input_method_send_deactivate x.addr :: send_im_state x t.input ++
            [Msg.text_input_send_leave t.input.addr,
             Msg.text_input_send_enter t.input.addr s])) ∧
      (im = none →
        t1.pending_focused_surface = some s ∧ t1.input.focused_surface = none ∧
        (t.input.focused_surface = none → mi = []) ∧
        (t.input.focused_surface ≠ none → mi = [Msg.text_input_send_leave t.input.addr]))) ∧
    ((target = none ∨ ∃ s, target = some s ∧ s.client ≠ t.input.client) →
      t1.input.focused_surface = none ∧ t1.pending_focused_surface = none) := by
  obtain ⟨⟨addr, client, focused, cur, en⟩, pending⟩ := t
  cases pending <;> cases focused <;> cases target <;> cases im <;>
    simp [set_focus_body, set_focus_enter, wlr_text_input_v3_send_enter,
      wlr_text_input_v3_send_leave, text_input.set_pending_focused_surface,
      disable_text_input] at hb hnf hpc ⊢
  all_goals (repeat' split at hb)
  all_goals (obtain ⟨rfl, rfl⟩ := hb; simp_all)
  all_goals (intro hc; exact absurd hc.symm (by assumption))

/-- C7 as stated fails. The relay `relay_orphan_focused` is reached from the empty
relay and has no input method; its second text input, of client 7, is focused on
`surface_a`, hence not focused on the target `surface_b`, a surface of client 7.
After `set_focus` it has the target pending, but it did receive a message: `leave`. -/
theorem set_focus_pending_after_leave :
    (run input_method_relay.empty (events_two_focused ++ [Event.input_method_destroy])).map
        (fun p => p.1) = some relay_orphan_focused ∧
    relay_orphan_focused.input_method = none ∧
    surface_b.client = (wrapper_at 2 (some surface_a) none).input.client ∧
    (wrapper_at 2 (some surface_a) none).input.focused_surface ≠ some surface_b ∧
    set_focus_body relay_orphan_focused.input_method (some surface_b)
        (wrapper_at 2 (some surface_a) none) =
      some (wrapper_at 2 none (some surface_b), [Msg.text_input_send_leave 2]) ∧
    (relay_orphan_focused.set_focus (some surface_b)).map (fun p => p.2) =
      some [Msg.text_input_send_leave 2] := by
  decide

/-- C7, amended. Let `set_focus target` run in a state reached from the empty relay by
events, no text input having both a pending and a focused surface, and take the text
input at position `i`, not focused on the target. Then `set_focus` returns, and its
trace is the trace of the text inputs before it, then the messages `mi` for it, then
the trace of those after it. If the target is non-null and of the client of the text
input: with an input method installed, and the target not already pending on the text
input, the text input ends focused on the target with no pending surface, and `mi`
ends with `enter` for the target (preceded by `deactivate`, the state snapshot and
`leave` exactly when it was focused on another surface); with no input method it ends
with the target pending and no focused surface, and `mi` is empty unless it was
focused on another surface, in which case `mi` is the one `leave`. If the target is
null or of another client, the text input ends with neither a focused nor a pending
surface. Nothing is said of a text input that has the target pending while an input
method is installed. -/
theorem set_focus_to_target (r : input_method_relay) (target : Option wlr_surface)
    (i : Nat) (t : text_input)
    (hr : Reachable r)
    (hok : ∀ u ∈ r.text_inputs,
      u.pending_focused_surface = none ∨ u.input.focused_surface = none)
    (hi : r.text_inputs[i]? = some t)
    (hnf : ∀ s, target = some s → t.input.focused_surface ≠ some s) :
    ∃ (r1 : input_method_relay) (msgs : List Msg) (t1 : text_input) (mi : List Msg)
      (l_pre : List text_input) (pre : List Msg) (l_post : List text_input) (post : List Msg),
      r.set_focus target = some (r1, msgs) ∧
      r1.text_inputs[i]? = some t1 ∧
      set_focus_loop r.input_method target (r.text_inputs.take i) = some (l_pre, pre) ∧
      set_focus_loop r.input_method target (r.text_inputs.drop (i + 1)) = some (l_post, post) ∧
      msgs = pre ++ mi ++ post ∧
      (∀ s, target = some s → s.client = t.input.client →
        (∀ x, r.input_method = some x → t.pending_focused_surface ≠ some s →
          t1.input.focused_surface = some s ∧ t1.pending_focused_surface = none ∧
          (t.input.focused_surface = none →
            mi = [Msg.text_input_send_enter t.input.addr s]) ∧
          (t.input.focused_surface ≠ none →
            mi = Msg.input_method_send_deactivate x.addr :: send_im_state x t.input ++
              [Msg.text_input_send_leave t.input.addr,
               Msg.text_input_send_enter t.input.addr s])) ∧
        (r.input_method = none →
          t1.pending_focused_surface = some s ∧ t1.input.focused_surface = none ∧
          (t.input.focused_surface = none → mi = []) ∧
          (t.input.focused_surface ≠ none →
            mi = [Msg.text_input_send_leave t.input.addr]))) ∧
      ((target = none ∨ ∃ s, target = some s ∧ s.client ≠ t.input.client) →
        t1.input.focused_surface = none ∧ t1.pending_focused_surface = none) := by
  obtain ⟨tis, ms, hl⟩ := set_focus_loop_total r.input_method target r.text_inputs hok
  obtain ⟨t1, mi, l_pre, pre, l_post, post, hb, h2, h3, h4, h5⟩ := set_focus_loop_at hl hi
  obtain ⟨g1, g2⟩ := set_focus_body_target r.input_method target t t1 mi hb hnf
    ((reachable_own_client hr).2 t (List.getElem?_mem hi))
  exact ⟨{ r with text_inputs := tis }, ms, t1, mi, l_pre, pre, l_post, post,
    by simp [input_method_relay.set_focus, hl], h2, h3, h4, h5, g1, g2⟩

/-- C7, amended, at the relay with `im_a` installed and one unfocused text input, when
a surface of its client gets the focus: the text input gets `enter` and is focused,
with no pending surface. -/
theorem set_focus_to_target_witness :
    Reachable relay_one_idle_im ∧
    relay_one_idle_im.set_focus (some surface_a) =
      some (relay_one_focused, [Msg.text_input_send_enter 1 surface_a]) ∧
    ∃ (t1 : text_input) (mi : List Msg),
      relay_one_focused.text_inputs[0]? = some t1 ∧
      t1.input.focused_surface = some surface_a ∧
      t1.pending_focused_surface = none ∧
      mi = [Msg.text_input_send_enter 1 surface_a] := by
  have hsf : relay_one_idle_im.set_focus (some surface_a) =
      some (relay_one_focused, [Msg.text_input_send_enter 1 surface_a]) := by decide
  have hr : Reachable relay_one_idle_im :=
    Reachable.step relay_one_idle relay_one_idle_im (Event.input_method_new 50 9) []
      (Reachable.step input_method_relay.empty relay_one_idle (Event.text_input_new 1 7) []
        Reachable.empty rfl) rfl
  obtain ⟨r1, msgs, t1, mi, _, _, _, _, h0, h1, _, _, _, h5, _⟩ :=
    set_focus_to_target relay_one_idle_im (some surface_a) 0
      (wrapper_at 1 none none) hr (by decide) rfl (by decide)
  rw [hsf] at h0
  simp only [Option.some.injEq, Prod.mk.injEq] at h0
  obtain ⟨rfl, _⟩ := h0
  obtain ⟨g1, g2, g3, _⟩ := (h5 surface_a rfl rfl).1 im_a rfl (by decide)
  exact ⟨hr, hsf, t1, mi, h1, g1, g2, g3 rfl⟩

/-! ## C8, C9, C10: the position of a popup -/

theorem update_geometry_y (views : wlr_surface → view_info) (r : input_method_relay)
    (p : popup_surface) (i : Nat) (ti : text_input) (s : wlr_surface)
    (hm : p.mapped = true) (hfirst : first_focused r i ti)
    (hs : ti.input.focused_surface = some s) :
    (popup_surface.update_geometry views r p).1.geometry.y =
      max 0
        (if anchor_y (views s) ti + p.surface_height > (views s).output_geometry.height then
          if cursor_rect_set ti then
            anchor_y (views s) ti - p.surface_height - ti.input.current.cursor_rectangle.height
          else anchor_y (views s) ti - p.surface_height
        else anchor_y (views s) ti) := by
  have hf : r.find_focused_text_input = some (i, ti) := find_if_eq_some hfirst
  simp only [popup_surface.update_geometry, hf, hm, hs, anchor_y, cursor_rect_set]
  cases (views s).xdg_geometry <;> simp

theorem update_geometry_x (views : wlr_surface → view_info) (r : input_method_relay)
    (p : popup_surface) (i : Nat) (ti : text_input) (s : wlr_surface)
    (hm : p.mapped = true) (hfirst : first_focused r i ti)
    (hs : ti.input.focused_surface = some s) :
    ∃ x : Int, (popup_surface.update_geometry views r p).1.geometry.x =
      max 0 (min x ((views s).output_geometry.width - p.surface_width)) := by
  have hf : r.find_focused_text_input = some (i, ti) := find_if_eq_some hfirst
  simp only [popup_surface.update_geometry, hf, hm, hs]
  exact ⟨_, rfl⟩

/-- C8 as stated fails. On an output 100 wide, a mapped popup 200 wide gets x = 0,
which is above `W - Pw = -100`. -/
theorem update_geometry_x_wide_popup :
    (popup_surface.update_geometry (fun _ => plain_view 100 100)
        (relay_cursor 0 { x := 0, y := 0, width := 0, height := 0 })
        (popup_of 200 50)).1.geometry.x = 0 ∧
    ¬ ((popup_surface.update_geometry (fun _ => plain_view 100 100)
        (relay_cursor 0 { x := 0, y := 0, width := 0, height := 0 })
        (popup_of 200 50)).1.geometry.x ≤
      (plain_view 100 100).output_geometry.width - (popup_of 200 50).surface_width) := by
  decide

/-- C8, amended. When `update_geometry` runs on a mapped popup while a text input is
focused (on surface `s`), the resulting x is at least 0, and it is at most `W - Pw`
exactly when the popup is not wider than the output (`Pw <= W`); for a popup wider
than the output x is 0. -/
theorem update_geometry_x_clamped (views : wlr_surface → view_info) (r : input_method_relay)
    (p : popup_surface) (i : Nat) (ti : text_input) (s : wlr_surface)
    (hm : p.mapped = true) (hfirst : first_focused r i ti)
    (hs : ti.input.focused_surface = some s) :
    0 ≤ (popup_surface.update_geometry views r p).1.geometry.x ∧
    ((popup_surface.update_geometry views r p).1.geometry.x ≤
        (views s).output_geometry.width - p.surface_width ↔
      p.surface_width ≤ (views s).output_geometry.width) ∧
    ((views s).output_geometry.width < p.surface_width →
      (popup_surface.update_geometry views r p).1.geometry.x = 0) := by
  obtain ⟨x, hx⟩ := update_geometry_x views r p i ti s hm hfirst hs
  rw [hx]
  refine ⟨?_, ?_, ?_⟩
  · omega
  · constructor <;> intro h <;> omega
  · intro h
    omega

/-- C8, amended, on an 800 wide output with a popup 300 wide and the cursor at x = 700:
the x of the popup is between 0 and 500. -/
theorem update_geometry_x_clamped_witness :
    0 ≤ (popup_surface.update_geometry (fun _ => plain_view 800 600)
        (relay_cursor 4 { x := 700, y := 100, width := 2, height := 30 })
        (popup_of 300 80)).1.geometry.x ∧
    (popup_surface.update_geometry (fun _ => plain_view 800 600)
        (relay_cursor 4 { x := 700, y := 100, width := 2, height := 30 })
        (popup_of 300 80)).1.geometry.x ≤ 800 - 300 :=
  have h := update_geometry_x_clamped (fun _ => plain_view 800 600)
    (relay_cursor 4 { x := 700, y := 100, width := 2, height := 30 }) (popup_of 300 80) 0
    (wrapper_cursor 4 { x := 700, y := 100, width := 2, height := 30 }) surface_a rfl
    ⟨rfl, rfl, fun j _ hj _ => absurd hj (Nat.not_lt_zero j)⟩ rfl
  ⟨h.1, h.2.1.mpr (by decide)⟩

/-- C11 as stated fails. Output 800x600, cursor-rectangle feature set, cursor rectangle
at y = 580 with height 30, popup 80 high, window at the output origin with no margins
and no surface offset: the resulting y is not 470. -/
theorem update_geometry_scenario_d_not_470 :
    (popup_surface.update_geometry (fun _ => plain_view 800 600)
        (relay_cursor 4 { x := 0, y := 580, width := 2, height := 30 })
        (popup_of 300 80)).1.geometry.y ≠ 470 := by
  decide

/-- C11, amended. With an output 600 high, the cursor-rectangle feature set, the
focused text input's cursor rectangle at y = 580 with height 30, a mapped popup 80
high, and the focused window at y = 0 with no top margin and no surface offset,
`update_geometry` yields y = 500: the anchor is 580 + 30 = 610, the popup would end
at 690, so it flips to 610 - 80 - 30. -/
theorem update_geometry_scenario_d (views : wlr_surface → view_info) (r : input_method_relay)
    (p : popup_surface) (i : Nat) (ti : text_input) (s : wlr_surface)
    (hm : p.mapped = true) (hfirst : first_focused r i ti)
    (hs : ti.input.focused_surface = some s)
    (hfeat : cursor_rect_set ti = true)
    (hcy : ti.input.current.cursor_rectangle.y = 580)
    (hch : ti.input.current.cursor_rectangle.height = 30)
    (hph : p.surface_height = 80)
    (hout : (views s).output_geometry.height = 600)
    (hgy : (views s).geometry.y = 0)
    (hmt : (views s).margins.top = 0)
    (hxdg : ∀ g, (views s).xdg_geometry = some g → g.y = 0) :
    (popup_surface.update_geometry views r p).1.geometry.y = 500 := by
  have ha : anchor_y (views s) ti = 610 := by
    unfold anchor_y
    rw [hfeat, hcy, hch, hgy, hmt]
    cases hx : (views s).xdg_geometry with
    | none => simp
    | some g => simp [hxdg g hx]
  rw [update_geometry_y views r p i ti s hm hfirst hs, ha, hph, hout, hfeat, hch]
  decide

/-- C11, amended, at the concrete relay, view and popup of scenario D. -/
theorem update_geometry_scenario_d_witness :
    (popup_surface.update_geometry (fun _ => plain_view 800 600)
        (relay_cursor 4 { x := 0, y := 580, width := 2, height := 30 })
        (popup_of 300 80)).1.geometry.y = 500 :=
  update_geometry_scenario_d (fun _ => plain_view 800 600)
    (relay_cursor 4 { x := 0, y := 580, width := 2, height := 30 }) (popup_of 300 80) 0
    (wrapper_cursor 4 { x := 0, y := 580, width := 2, height := 30 }) surface_a rfl
    ⟨rfl, rfl, fun j _ hj _ => absurd hj (Nat.not_lt_zero j)⟩ rfl
    (by decide) rfl rfl rfl rfl rfl rfl (fun g hg => by cases hg)

/-! ## The keyboard grab in reachable states -/

theorem on_input_method_new_fields (r : input_method_relay) (im : wlr_input_method_v2) :
    (r.on_input_method_new im).1.keyboard_grab = r.keyboard_grab ∧
    (r.input_method = none → (r.on_input_method_new im).1.input_method = some im) ∧
    (∀ old, r.input_method = some old → (r.on_input_method_new im).1 = r) := by
  refine ⟨?_, on_input_method_new_installs r im, ?_⟩
  · cases him : r.input_method with
    | some old => simp [input_method_relay.on_input_method_new, him]
    | none =>
      simp only [input_method_relay.on_input_method_new, him]
      split
      · split <;> rfl
      · rfl
  · intro old h
    simp [input_method_relay.on_input_method_new, h]

theorem on_input_method_destroy_fields (r r1 : input_method_relay) (im : wlr_input_method_v2)
    (msgs : List Msg) (hd : r.on_input_method_destroy im = some (r1, msgs)) :
    r.input_method = some im ∧ r1.input_method = none ∧ r1.keyboard_grab = none ∧
    r1.popup_surfaces = r.popup_surfaces := by
  unfold input_method_relay.on_input_method_destroy at hd
  by_cases him : r.input_method = some im
  · simp only [him, ne_eq, not_true_eq_false, if_false] at hd
    split at hd
    · simp only [Option.some.injEq, Prod.mk.injEq] at hd
      obtain ⟨rfl, _⟩ := hd
      exact ⟨him, rfl, rfl, rfl⟩
    · simp only [wlr_text_input_v3_send_leave, text_input.set_pending_focused_surface,
        Option.some.injEq, Prod.mk.injEq] at hd
      obtain ⟨rfl, _⟩ := hd
      exact ⟨him, rfl, rfl, rfl⟩
  · simp [him] at hd

theorem on_text_input_commit_grab (views : wlr_surface → view_info) (r : input_method_relay)
    (input : wlr_text_input_v3) :
    (input_method_relay.on_text_input_commit views r input).1.keyboard_grab =
      r.keyboard_grab := by
  unfold input_method_relay.on_text_input_commit
  split
  · rfl
  · split <;> rfl

theorem grab_consistent_of_fields {r r1 : input_method_relay}
    (h1 : r1.input_method = r.input_method) (h2 : r1.keyboard_grab = r.keyboard_grab)
    (h : grab_consistent r) : grab_consistent r1 := by
  constructor
  · intro g hg
    rw [h2] at hg
    obtain ⟨im, g1, a, b, c, d⟩ := h.1 g hg
    exact ⟨im, g1, by rw [h1, a], b, c, d⟩
  · intro im him hk
    rw [h1] at him
    rw [h2] at hk
    exact h.2 im him hk

theorem step_grab_consistent (r r1 : input_method_relay) (e : Event) (msgs : List Msg)
    (h : grab_consistent r) (hs : step r e = some (r1, msgs)) : grab_consistent r1 := by
  cases e with
  | text_input_new addr client =>
    simp only [step, input_method_relay.on_text_input_new, Option.some.injEq,
      Prod.mk.injEq] at hs
    obtain ⟨rfl, _⟩ := hs
    exact grab_consistent_of_fields rfl rfl h
  | text_input_enable addr state =>
    simp only [step] at hs
    split at hs
    · simp only [Option.some.injEq, Prod.mk.injEq] at hs
      obtain ⟨rfl, _⟩ := hs
      exact h
    · simp only [Option.some.injEq] at hs
      have e1 := congrArg Prod.fst hs
      rw [on_text_input_enable_state] at e1
      simp only at e1
      subst e1
      exact grab_consistent_of_fields rfl rfl h
  | text_input_commit addr state views =>
    simp only [step] at hs
    split at hs
    · simp only [Option.some.injEq, Prod.mk.injEq] at hs
      obtain ⟨rfl, _⟩ := hs
      exact h
    · split at hs
      · simp only [Option.some.injEq, Prod.mk.injEq] at hs
        obtain ⟨rfl, _⟩ := hs
        exact h
      · simp only [Option.some.injEq] at hs
        have e1 := congrArg Prod.fst hs
        simp only at e1
        subst e1
        exact grab_consistent_of_fields (on_text_input_commit_state _ _ _).2
          (on_text_input_commit_grab _ _ _) h
  | text_input_disable addr state =>
    simp only [step] at hs
    split at hs
    · simp only [Option.some.injEq, Prod.mk.injEq] at hs
      obtain ⟨rfl, _⟩ := hs
      exact h
    · simp only [input_method_relay.on_text_input_disable, Option.some.injEq,
        Prod.mk.injEq] at hs
      obtain ⟨rfl, _⟩ := hs
      exact grab_consistent_of_fields rfl rfl h
  | text_input_destroy addr =>
    simp only [step] at hs
    split at hs
    · simp only [Option.some.injEq, Prod.mk.injEq] at hs
      obtain ⟨rfl, _⟩ := hs
      exact h
    · simp only [Option.some.injEq] at hs
      have e1 := congrArg Prod.fst hs
      simp only at e1
      subst e1
      exact grab_consistent_of_fields rfl rfl h
  | input_method_new addr client =>
    simp only [step, Option.some.injEq] at hs
    have e1 := congrArg Prod.fst hs
    simp only at e1
    subst e1
    obtain ⟨f1, f2, f3⟩ := on_input_method_new_fields r
      { addr := addr, client := client, current := wlr_input_method_v2_state.zero,
        keyboard_grab := none }
    cases him : r.input_method with
    | some old =>
      rw [f3 old him]
      exact h
    | none =>
      constructor
      · intro g hg
        rw [f1] at hg
        obtain ⟨im, _, a, _⟩ := h.1 g hg
        rw [him] at a
        cases a
      · intro im hi _
        rw [f2 him] at hi
        cases hi
        rfl
  | input_method_commit state =>
    simp only [step] at hs
    split at hs
    · simp only [Option.some.injEq, Prod.mk.injEq] at hs
      obtain ⟨rfl, _⟩ := hs
      exact h
    · rename_i im him
      unfold input_method_relay.on_input_method_commit at hs
      simp only [ne_eq, not_true_eq_false, if_false] at hs
      have key : grab_consistent { r with input_method := some { im with current := state } } := by
        constructor
        · intro g hg
          obtain ⟨im0, g1, a, b, c, d⟩ := h.1 g hg
          rw [him] at a
          cases a
          exact ⟨_, g1, rfl, b, c, d⟩
        · intro im1 hi hk
          simp only [Option.some.injEq] at hi
          subst hi
          exact h.2 im him hk
      split at hs <;>
        (simp only [Option.some.injEq, Prod.mk.injEq] at hs
         obtain ⟨rfl, _⟩ := hs
         exact key)
  | input_method_destroy =>
    simp only [step] at hs
    split at hs
    · simp only [Option.some.injEq, Prod.mk.injEq] at hs
      obtain ⟨rfl, _⟩ := hs
      exact h
    · obtain ⟨_, h2, h3, _⟩ := on_input_method_destroy_fields r r1 _ msgs hs
      constructor
      · intro g hg
        rw [h3] at hg
        cases hg
      · intro im hi _
        rw [h2] at hi
        cases hi
  | grab_keyboard grab =>
    simp only [step] at hs
    split at hs
    · simp only [Option.some.injEq, Prod.mk.injEq] at hs
      obtain ⟨rfl, _⟩ := hs
      exact h
    · rename_i im him
      unfold input_method_relay.on_grab_keyboard at hs
      simp only at hs
      cases hk : r.keyboard_grab with
      | some g0 =>
        simp only [hk, Option.some.injEq, Prod.mk.injEq] at hs
        obtain ⟨rfl, _⟩ := hs
        obtain ⟨im0, g1, a, b, c, d⟩ := h.1 g0 hk
        rw [him] at a
        cases a
        have hkeep : wlr_input_method_grab im grab = im := by
          simp [wlr_input_method_grab, b]
        constructor
        · intro g hg
          simp only [Option.some.injEq] at hg
          subst hg
          exact ⟨_, g1, rfl, by rw [hkeep]; exact b, c, d⟩
        · intro im1 _ hk1
          cases hk1
      | none =>
        simp only [hk, Option.some.injEq, Prod.mk.injEq] at hs
        obtain ⟨rfl, _⟩ := hs
        have hnone : im.keyboard_grab = none := h.2 im him hk
        constructor
        · intro g hg
          simp only [Option.some.injEq] at hg
          subst hg
          exact ⟨_, grab, rfl, by simp [wlr_input_method_grab, hnone], rfl, rfl⟩
        · intro im1 _ hk1
          cases hk1
  | grab_keyboard_destroy =>
    simp only [step] at hs
    split at hs
    · simp only [Option.some.injEq, Prod.mk.injEq] at hs
      obtain ⟨rfl, _⟩ := hs
      exact h
    · simp only [input_method_relay.on_grab_keyboard_destroy, Option.some.injEq,
        Prod.mk.injEq] at hs
      obtain ⟨rfl, _⟩ := hs
      constructor
      · intro g hg
        cases hg
      · intro im1 hi _
        simp only [Option.map_eq_some'] at hi
        obtain ⟨im0, _, rfl⟩ := hi
        rfl
  | set_focus surface =>
    simp only [step, input_method_relay.set_focus] at hs
    split at hs
    · cases hs
    · simp only [Option.some.injEq, Prod.mk.injEq] at hs
      obtain ⟨rfl, _⟩ := hs
      exact grab_consistent_of_fields rfl rfl h

theorem reachable_grab_consistent {r : input_method_relay} (h : Reachable r) :
    grab_consistent r := by
  induction h with
  | empty =>
    constructor
    · intro g hg
      cases hg
    · intro im hi
      cases hi
  | step r r1 e msgs _ hs ih => exact step_grab_consistent r r1 e msgs ih hs

theorem should_grab_of_consistent (r : input_method_relay) (kbd : wlr_keyboard)
    (h : grab_consistent r) :
    (r.keyboard_grab = none → r.should_grab kbd = some false) ∧
    (∀ g, r.keyboard_grab = some g → kbd.virtual_keyboard = none →
      r.should_grab kbd = some true) ∧
    (∀ g c, r.keyboard_grab = some g → kbd.virtual_keyboard = some c →
      r.should_grab kbd = some (!(c == g.client))) := by
  refine ⟨?_, ?_, ?_⟩
  · intro hk
    simp [input_method_relay.should_grab, hk]
  · intro g hk hv
    simp [input_method_relay.should_grab, hk, hv]
  · intro g c hk hv
    obtain ⟨im, g1, a, b, _, d⟩ := h.1 g hk
    simp [input_method_relay.should_grab, hk, hv, a, b, d]

theorem handle_key_of_should_grab (r : input_method_relay) (kbd : wlr_keyboard)
    (time key state : Nat) :
    (r.should_grab kbd = some false →
      r.handle_key kbd time key state = some (r, [], false) ∧
      r.handle_modifier kbd = some (r, [], false)) ∧
    (r.should_grab kbd = some true →
      ∃ g, r.keyboard_grab = some g ∧
        r.handle_key kbd time key state =
          some ({ r with keyboard_grab := some { g with keyboard := some kbd.addr } },
            [Msg.keyboard_grab_set_keyboard g.addr kbd.addr,
             Msg.keyboard_grab_send_key g.addr time key state], true) ∧
        r.handle_modifier kbd =
          some ({ r with keyboard_grab := some { g with keyboard := some kbd.addr } },
            [Msg.keyboard_grab_set_keyboard g.addr kbd.addr,
             Msg.keyboard_grab_send_modifiers g.addr kbd.modifiers], true)) := by
  constructor
  · intro h
    simp [input_method_relay.handle_key, input_method_relay.handle_modifier, h]
  · intro h
    cases hk : r.keyboard_grab with
    | none => simp [input_method_relay.should_grab, hk] at h
    | some g =>
      exact ⟨g, rfl, by simp [input_method_relay.handle_key, h, hk, set_keyboard],
        by simp [input_method_relay.handle_modifier, h, hk, set_keyboard]⟩

/-! ## C12: feedback suppression -/

/-- C12. In every state reached from the empty relay, `should_grab` returns false when
no keyboard grab is installed, returns false when the keyboard is a virtual keyboard
of the client connection that owns the grab, and returns true in every other case
(a physical keyboard, or a virtual keyboard of another client); for a virtual keyboard
of the grab-owning client `handle_key` and `handle_modifier` send nothing, leave the
relay as it is and return false. -/
theorem should_grab_feedback (r : input_method_relay) (kbd : wlr_keyboard)
    (hr : Reachable r) :
    (r.keyboard_grab = none → r.should_grab kbd = some false) ∧
    (∀ g c, r.keyboard_grab = some g → kbd.virtual_keyboard = some c → c = g.client →
      r.should_grab kbd = some false ∧
      (∀ time key state : Nat, r.handle_key kbd time key state = some (r, [], false)) ∧
      r.handle_modifier kbd = some (r, [], false)) ∧
    (∀ g, r.keyboard_grab = some g →
      (kbd.virtual_keyboard = none ∨ ∃ c, kbd.virtual_keyboard = some c ∧ c ≠ g.client) →
      r.should_grab kbd = some true) := by
  obtain ⟨h1, h2, h3⟩ := should_grab_of_consistent r kbd (reachable_grab_consistent hr)
  refine ⟨h1, ?_, ?_⟩
  · intro g c hk hv hc
    have hsg : r.should_grab kbd = some false := by
      rw [h3 g c hk hv]
      simp [hc]
    exact ⟨hsg, fun time key state => ((handle_key_of_should_grab r kbd time key state).1 hsg).1,
      ((handle_key_of_should_grab r kbd 0 0 0).1 hsg).2⟩
  · intro g hk hv
    rcases hv with hv | ⟨c, hv, hne⟩
    · exact h2 g hk hv
    · rw [h3 g c hk hv]
      simp [hne]

/-- C12 at the relay with `im_a` and its grab installed: the virtual keyboard of the
client of `im_a` is not grabbed, a physical keyboard and a virtual keyboard of another
client are. -/
theorem should_grab_feedback_witness :
    Reachable relay_grabbed ∧
    relay_grabbed.should_grab kbd_virtual_im = some false ∧
    relay_grabbed.handle_key kbd_virtual_im 1000 30 1 = some (relay_grabbed, [], false) ∧
    relay_grabbed.should_grab kbd_physical = some true ∧
    relay_grabbed.should_grab kbd_virtual_other = some true := by
  have hr : Reachable relay_grabbed :=
    Reachable.step relay_im_only relay_grabbed (Event.grab_keyboard grab_a) []
      (Reachable.step input_method_relay.empty relay_im_only (Event.input_method_new 50 9) []
        Reachable.empty rfl) rfl
  have h := should_grab_feedback relay_grabbed kbd_virtual_im hr
  have h1 := h.2.1 grab_a 9 rfl rfl rfl
  exact ⟨hr, h1.1, h1.2.1 1000 30 1,
    (should_grab_feedback relay_grabbed kbd_physical hr).2.2 grab_a rfl (Or.inl rfl),
    (should_grab_feedback relay_grabbed kbd_virtual_other hr).2.2 grab_a rfl
      (Or.inr ⟨12, rfl, by decide⟩)⟩

/-! ## C13: key forwarding -/

/-- C13. In every state reached from the empty relay, `should_grab` returns a value `b`,
and `handle_key` and `handle_modifier` return that value. When it is true, a grab `g`
is installed, `handle_key` sends to it exactly `set_keyboard(kbd)` then
`send_key(time, key, state)` with the three values as given, `handle_modifier` sends
exactly `set_keyboard(kbd)` then `send_modifiers` with the modifiers of the keyboard,
and the grab is bound to the keyboard. When it is false, nothing is sent and the relay,
with the keyboard the grab is bound to, is unchanged. -/
theorem handle_key_forwards (r : input_method_relay) (kbd : wlr_keyboard)
    (time key state : Nat) (hr : Reachable r) :
    ∃ b : Bool, r.should_grab kbd = some b ∧
      (r.handle_key kbd time key state).map (fun p => p.2.2) = some b ∧
      (r.handle_modifier kbd).map (fun p => p.2.2) = some b ∧
      (b = true →
        ∃ g, r.keyboard_grab = some g ∧
          r.handle_key kbd time key state =
            some ({ r with keyboard_grab := some { g with keyboard := some kbd.addr } },
              [Msg.keyboard_grab_set_keyboard g.addr kbd.addr,
               Msg.keyboard_grab_send_key g.addr time key state], true) ∧
          r.handle_modifier kbd =
            some ({ r with keyboard_grab := some { g with keyboard := some kbd.addr } },
              [Msg.keyboard_grab_set_keyboard g.addr kbd.addr,
               Msg.keyboard_grab_send_modifiers g.addr kbd.modifiers], true)) ∧
      (b = false →
        r.handle_key kbd time key state = some (r, [], false) ∧
        r.handle_modifier kbd = some (r, [], false)) := by
  obtain ⟨h1, h2, h3⟩ := should_grab_of_consistent r kbd (reachable_grab_consistent hr)
  obtain ⟨k1, k2⟩ := handle_key_of_should_grab r kbd time key state
  have hex : ∃ b : Bool, r.should_grab kbd = some b := by
    cases hk : r.keyboard_grab with
    | none => exact ⟨false, h1 hk⟩
    | some g =>
      cases hv : kbd.virtual_keyboard with
      | none => exact ⟨true, h2 g hk hv⟩
      | some c => exact ⟨_, h3 g c hk hv⟩
  obtain ⟨b, hb⟩ := hex
  cases b with
  | false =>
    obtain ⟨e1, e2⟩ := k1 hb
    exact ⟨false, hb, (by rw [e1]; rfl), (by rw [e2]; rfl), (fun hf => Bool.noConfusion hf),
      fun _ => ⟨e1, e2⟩⟩
  | true =>
    obtain ⟨g, hg, e1, e2⟩ := k2 hb
    exact ⟨true, hb, (by rw [e1]; rfl), (by rw [e2]; rfl), (fun _ => ⟨g, hg, e1, e2⟩),
      fun hf => Bool.noConfusion hf⟩

/-- C13 at the relay with `im_a` and its grab installed, for a key of the physical
keyboard: the key is forwarded after the grab is bound to that keyboard. -/
theorem handle_key_forwards_witness :
    Reachable relay_grabbed ∧
    ∃ b : Bool, relay_grabbed.should_grab kbd_physical = some b ∧
      (relay_grabbed.handle_key kbd_physical 1000 30 1).map (fun p => p.2.2) = some b ∧
      relay_grabbed.handle_key kbd_physical 1000 30 1 =
        some ({ relay_grabbed with keyboard_grab := some { grab_a with keyboard := some 80 } },
          [Msg.keyboard_grab_set_keyboard 60 80, Msg.keyboard_grab_send_key 60 1000 30 1],
          true) := by
  have hr : Reachable relay_grabbed :=
    Reachable.step relay_im_only relay_grabbed (Event.grab_keyboard grab_a) []
      (Reachable.step input_method_relay.empty relay_im_only (Event.input_method_new 50 9) []
        Reachable.empty rfl) rfl
  obtain ⟨b, h1, h2, _, _, _⟩ := handle_key_forwards relay_grabbed kbd_physical 1000 30 1 hr
  exact ⟨hr, b, h1, h2, by decide⟩

/-! ## C14: grab idempotence -/

/-- C14. When a keyboard grab is installed, a second grab-keyboard request leaves the
relay state as it is (the installed grab with its bound keyboard included) and sends
nothing; when none is installed, the request installs the new grab, changes nothing
else and sends nothing. -/
theorem on_grab_keyboard_idempotent (r : input_method_relay)
    (data : wlr_input_method_keyboard_grab_v2) :
    (∀ g, r.keyboard_grab = some g → r.on_grab_keyboard data = (r, [])) ∧
    (r.keyboard_grab = none →
      r.on_grab_keyboard data =
        ({ text_inputs := r.text_inputs, input_method := r.input_method,
           keyboard_grab := some data, popup_surfaces := r.popup_surfaces }, [])) := by
  constructor
  · intro g h
    simp [input_method_relay.on_grab_keyboard, h]
  · intro h
    simp [input_method_relay.on_grab_keyboard, h]

/-- C14 at the relay with `grab_a` installed, when `grab_b` is requested, and at the
relay with no grab, when `grab_a` is requested. -/
theorem on_grab_keyboard_idempotent_witness :
    relay_grabbed.on_grab_keyboard grab_b = (relay_grabbed, []) ∧
    relay_im_only.on_grab_keyboard grab_a =
      ({ text_inputs := [], input_method := some im_a, keyboard_grab := some grab_a,
         popup_surfaces := [] }, []) :=
  ⟨(on_grab_keyboard_idempotent relay_grabbed grab_b).1 grab_a rfl,
   (on_grab_keyboard_idempotent relay_im_only grab_a).2 rfl⟩

/-! ## C15: no input method, no forwarding -/

/-- C15. With no input method installed, the handlers of a text input for its enable,
disable and commit events send nothing and leave the relay state as it is; they are
total functions, no error is raised. -/
theorem text_input_events_without_input_method (views : wlr_surface → view_info)
    (r : input_method_relay) (input : wlr_text_input_v3) (h : r.input_method = none) :
    r.on_text_input_enable input = (r, []) ∧
    r.on_text_input_disable input = (r, []) ∧
    input_method_relay.on_text_input_commit views r input = (r, []) := by
  refine ⟨?_, ?_, ?_⟩
  · simp [input_method_relay.on_text_input_enable, h]
  · simp [input_method_relay.on_text_input_disable, disable_text_input, h]
  · unfold input_method_relay.on_text_input_commit
    split
    · rfl
    · simp [h]

/-- C15 at the relay `relay_hello_alone`, for its enabled text input. -/
theorem text_input_events_without_input_method_witness :
    relay_hello_alone.input_method = none ∧
    relay_hello_alone.on_text_input_enable (input_hello true) = (relay_hello_alone, []) ∧
    relay_hello_alone.on_text_input_disable (input_hello true) = (relay_hello_alone, []) ∧
    input_method_relay.on_text_input_commit (fun _ => plain_view 800 600) relay_hello_alone
      (input_hello true) = (relay_hello_alone, []) :=
  ⟨rfl, text_input_events_without_input_method (fun _ => plain_view 800 600)
    relay_hello_alone (input_hello true) rfl⟩

/-! ## C16: enable and disable -/

/-- C16. With an input method installed, the enable handler of a text input sends to
the input method exactly `activate`, `surrounding-text(text, cursor, anchor)`,
`text-change-cause`, `content-type(hint, purpose)`, `done`, in this order, with the
values of the current snapshot of the text input; the disable handler sends the same
with `deactivate` in place of `activate`. Neither changes the relay state. -/
theorem enable_disable_sequence (r : input_method_relay) (im : wlr_input_method_v2)
    (input : wlr_text_input_v3) (h : r.input_method = some im) :
    r.on_text_input_enable input =
      (r, [Msg.input_method_send_activate im.addr,
           Msg.input_method_send_surrounding_text im.addr input.current.surrounding.text
             input.current.surrounding.cursor input.current.surrounding.anchor,
           Msg.input_method_send_text_change_cause im.addr input.current.text_change_cause,
           Msg.input_method_send_content_type im.addr input.current.content_type.hint
             input.current.content_type.purpose,
           Msg.input_method_send_done im.addr]) ∧
    r.on_text_input_disable input =
      (r, [Msg.input_method_send_deactivate im.addr,
           Msg.input_method_send_surrounding_text im.addr input.current.surrounding.text
             input.current.surrounding.cursor input.current.surrounding.anchor,
           Msg.input_method_send_text_change_cause im.addr input.current.text_change_cause,
           Msg.input_method_send_content_type im.addr input.current.content_type.hint
             input.current.content_type.purpose,
           Msg.input_method_send_done im.addr]) := by
  constructor
  · simp [input_method_relay.on_text_input_enable, h, send_im_state]
  · simp [input_method_relay.on_text_input_disable, disable_text_input, h, send_im_state]

/-- C16 at the relay `relay_hello`: the snapshot "hello", 5, 5, cause 1, content type
(2, 3) goes to the input method at address 50 after `activate`. -/
theorem enable_disable_sequence_witness :
    relay_hello.input_method = some im_a ∧
    relay_hello.on_text_input_enable (input_hello true) =
      (relay_hello, [Msg.input_method_send_activate 50,
                     Msg.input_method_send_surrounding_text 50 (some "hello") 5 5,
                     Msg.input_method_send_text_change_cause 50 1,
                     Msg.input_method_send_content_type 50 2 3,
                     Msg.input_method_send_done 50]) :=
  ⟨rfl, (enable_disable_sequence relay_hello im_a (input_hello true) rfl).1⟩

/-! ## C17: commit gating -/

theorem update_geometry_not_to_input_method (views : wlr_surface → view_info)
    (r : input_method_relay) (p : popup_surface) :
    ∀ m ∈ (popup_surface.update_geometry views r p).2, m.to_input_method = false := by
  unfold popup_surface.update_geometry
  split
  · simp
  · split
    · simp
    · split
      · simp
      · intro m hm
        simp only [List.mem_cons, List.mem_singleton, List.not_mem_nil, or_false] at hm
        rcases hm with rfl | rfl | rfl <;> rfl

theorem update_popups_eq (views : wlr_surface → view_info) (r : input_method_relay)
    (ps : List popup_surface) :
    update_popups views r ps =
      (ps.map (fun p => (popup_surface.update_geometry views r p).1),
       (ps.map (fun p => (popup_surface.update_geometry views r p).2)).flatten) := by
  induction ps with
  | nil => rfl
  | cons p ps ih => simp [update_popups, ih]

/-- C17. The commit handler of a text input forwards to the input method exactly when
the text input is enabled and an input method is installed. In that case every popup
of the collection has `update_geometry` run on it, in order, the trace of those runs
(which holds no message to the input method) comes first, and then the input method
gets exactly `surrounding-text`, `text-change-cause`, `content-type`, `done`. When the
text input is not enabled, or no input method is installed, nothing is sent and the
relay, popups included, is unchanged. -/
theorem commit_gating (views : wlr_surface → view_info) (r : input_method_relay)
    (input : wlr_text_input_v3) :
    (∀ im, input.current_enabled = true → r.input_method = some im →
      input_method_relay.on_text_input_commit views r input =
        ({ text_inputs := r.text_inputs, input_method := r.input_method,
           keyboard_grab := r.keyboard_grab,
           popup_surfaces :=
             r.popup_surfaces.map (fun p => (popup_surface.update_geometry views r p).1) },
         (r.popup_surfaces.map (fun p => (popup_surface.update_geometry views r p).2)).flatten ++
           [Msg.input_method_send_surrounding_text im.addr input.current.surrounding.text
              input.current.surrounding.cursor input.current.surrounding.anchor,
            Msg.input_method_send_text_change_cause im.addr input.current.text_change_cause,
            Msg.input_method_send_content_type im.addr input.current.content_type.hint
              input.current.content_type.purpose,
            Msg.input_method_send_done im.addr]) ∧
      ∀ m ∈ (r.popup_surfaces.map
          (fun p => (popup_surface.update_geometry views r p).2)).flatten,
        m.to_input_method = false) ∧
    (input.current_enabled = false ∨ r.input_method = none →
      input_method_relay.on_text_input_commit views r input = (r, [])) ∧
    ((∃ m ∈ (input_method_relay.on_text_input_commit views r input).2,
        m.to_input_method = true) ↔
      (input.current_enabled = true ∧ r.input_method ≠ none)) := by
  have hA : ∀ im, input.current_enabled = true → r.input_method = some im →
      input_method_relay.on_text_input_commit views r input =
        ({ text_inputs := r.text_inputs, input_method := r.input_method,
           keyboard_grab := r.keyboard_grab,
           popup_surfaces :=
             r.popup_surfaces.map (fun p => (popup_surface.update_geometry views r p).1) },
         (r.popup_surfaces.map (fun p => (popup_surface.update_geometry views r p).2)).flatten ++
           [Msg.input_method_send_surrounding_text im.addr input.current.surrounding.text
              input.current.surrounding.cursor input.current.surrounding.anchor,
            Msg.input_method_send_text_change_cause im.addr input.current.text_change_cause,
            Msg.input_method_send_content_type im.addr input.current.content_type.hint
              input.current.content_type.purpose,
            Msg.input_method_send_done im.addr]) := by
    intro im he him
    simp [input_method_relay.on_text_input_commit, he, him, update_popups_eq, send_im_state]
  have hB : input.current_enabled = false ∨ r.input_method = none →
      input_method_relay.on_text_input_commit views r input = (r, []) := by
    intro h
    unfold input_method_relay.on_text_input_commit
    rcases h with h | h
    · simp [h]
    · split
      · rfl
      · simp [h]
  have hP : ∀ m ∈ (r.popup_surfaces.map
      (fun p => (popup_surface.update_geometry views r p).2)).flatten,
      m.to_input_method = false := by
    intro m hm
    simp only [List.mem_flatten, List.mem_map] at hm
    obtain ⟨l, ⟨p, _, rfl⟩, hml⟩ := hm
    exact update_geometry_not_to_input_method views r p m hml
  refine ⟨fun im he him => ⟨hA im he him, hP⟩, hB, ?_⟩
  constructor
  · rintro ⟨m, hm, hto⟩
    by_contra hcon
    have hor : input.current_enabled = false ∨ r.input_method = none := by
      by_cases he : input.current_enabled = true
      · right
        by_contra hne
        exact hcon ⟨he, hne⟩
      · left
        simpa using he
    rw [hB hor] at hm
    simp at hm
  · rintro ⟨he, hne⟩
    cases him : r.input_method with
    | none => exact absurd him hne
    | some im =>
      rw [hA im he him]
      exact ⟨Msg.input_method_send_done im.addr, by simp, rfl⟩

/-- C17 at the relay `relay_hello`, for its enabled text input: the popup is moved
first, then the snapshot goes to the input method. -/
theorem commit_gating_witness :
    ((input_method_relay.on_text_input_commit (fun _ => plain_view 800 600) relay_hello
        (input_hello true)).2.filter Msg.to_input_method =
      [Msg.input_method_send_surrounding_text 50 (some "hello") 5 5,
       Msg.input_method_send_text_change_cause 50 1,
       Msg.input_method_send_content_type 50 2 3,
       Msg.input_method_send_done 50]) ∧
    input_method_relay.on_text_input_commit (fun _ => plain_view 800 600) relay_hello
        (input_hello false) = (relay_hello, []) :=
  ⟨by decide,
   (commit_gating (fun _ => plain_view 800 600) relay_hello (input_hello false)).2.1
     (Or.inl rfl)⟩

/-! ## C18: destruction of a text input -/

theorem filter_after_clear_pending (addr : Nat) (l : List text_input) :
    (l.map (fun (t : text_input) =>
        if t.input.addr = addr then t.set_pending_focused_surface none else t)).filter
      (fun inp => inp.input.addr != addr) =
    l.filter (fun inp => inp.input.addr != addr) := by
  induction l with
  | nil => rfl
  | cons a as ih =>
    by_cases h : a.input.addr = addr
    · simp only [List.map_cons, h, if_true, List.filter_cons,
        text_input.set_pending_focused_surface, bne_self_eq_false, Bool.false_eq_true,
        if_false]
      exact ih
    · simp only [List.map_cons, h, if_false, List.filter_cons]
      rw [ih]

/-- C18. The destroy handler of a text input first performs the disable (`deactivate`
and the state snapshot to the input method) exactly when the text input is enabled and
an input method is installed, and sends nothing otherwise; after clearing the pending
surface of the text input it removes from the collection exactly the entries of that
text input (those with its address): the other text inputs stay, unmodified and in
the same order, and nothing else of the relay changes. -/
theorem on_text_input_destroy_removes (r : input_method_relay) (input : wlr_text_input_v3) :
    (r.on_text_input_destroy input).1 =
      { text_inputs := r.text_inputs.filter (fun t => t.input.addr != input.addr),
        input_method := r.input_method, keyboard_grab := r.keyboard_grab,
        popup_surfaces := r.popup_surfaces } ∧
    (∀ im, input.current_enabled = true → r.input_method = some im →
      (r.on_text_input_destroy input).2 =
        [Msg.input_method_send_deactivate im.addr,
         Msg.input_method_send_surrounding_text im.addr input.current.surrounding.text
           input.current.surrounding.cursor input.current.surrounding.anchor,
         Msg.input_method_send_text_change_cause im.addr input.current.text_change_cause,
         Msg.input_method_send_content_type im.addr input.current.content_type.hint
           input.current.content_type.purpose,
         Msg.input_method_send_done im.addr]) ∧
    (input.current_enabled = false ∨ r.input_method = none →
      (r.on_text_input_destroy input).2 = []) ∧
    (∀ t ∈ (r.on_text_input_destroy input).1.text_inputs,
      t ∈ r.text_inputs ∧ t.input.addr ≠ input.addr) ∧
    (∀ t ∈ r.text_inputs, t.input.addr ≠ input.addr →
      t ∈ (r.on_text_input_destroy input).1.text_inputs) ∧
    ((r.on_text_input_destroy input).1.text_inputs).Sublist r.text_inputs := by
  have h1 : (r.on_text_input_destroy input).1 =
      { text_inputs := r.text_inputs.filter (fun t => t.input.addr != input.addr),
        input_method := r.input_method, keyboard_grab := r.keyboard_grab,
        popup_surfaces := r.popup_surfaces } := by
    simp only [input_method_relay.on_text_input_destroy, input_method_relay.remove_text_input,
      filter_after_clear_pending]
  refine ⟨h1, ?_, ?_, ?_, ?_, ?_⟩
  · intro im he him
    simp [input_method_relay.on_text_input_destroy, he, him, disable_text_input, send_im_state]
  · intro h
    rcases h with h | h
    · simp [input_method_relay.on_text_input_destroy, h]
    · simp only [input_method_relay.on_text_input_destroy, h, disable_text_input]
      split <;> rfl
  · intro t ht
    rw [h1] at ht
    simpa using ht
  · intro t ht hne
    rw [h1]
    simpa using ⟨ht, hne⟩
  · rw [h1]
    exact List.filter_sublist _

/-- C18 at the relay `relay_hello`, when its enabled text input (address 1) is
destroyed: the disable goes to the input method and only the other text input is left. -/
theorem on_text_input_destroy_removes_witness :
    relay_hello.on_text_input_destroy (input_hello true) =
      ({ text_inputs := [wrapper_at 2 none none], input_method := some im_a,
         keyboard_grab := none, popup_surfaces := [popup_of 300 80] },
       [Msg.input_method_send_deactivate 50,
        Msg.input_method_send_surrounding_text 50 (some "hello") 5 5,
        Msg.input_method_send_text_change_cause 50 1,
        Msg.input_method_send_content_type 50 2 3,
        Msg.input_method_send_done 50]) :=
  Prod.ext ((on_text_input_destroy_removes relay_hello (input_hello true)).1.trans (by decide))
    ((on_text_input_destroy_removes relay_hello (input_hello true)).2.1 im_a rfl rfl)

/-! ## C19: lifetime of the keyboard grab -/

/-- C19. In every state reached from the empty relay by events (service connect and
destroy, grab-keyboard and grab-destroy among them), a keyboard grab is installed only
while an input method is installed, `should_grab` never runs into a null input method
(it returns a value for every keyboard), and the destroy handler of the input method
leaves neither a grab nor an input method. -/
theorem grab_only_with_input_method (r : input_method_relay) (hr : Reachable r) :
    (r.keyboard_grab ≠ none → r.input_method ≠ none) ∧
    (∀ kbd : wlr_keyboard, ∃ b : Bool, r.should_grab kbd = some b) ∧
    (∀ (im : wlr_input_method_v2) (r1 : input_method_relay) (msgs : List Msg),
      r.on_input_method_destroy im = some (r1, msgs) →
      r1.keyboard_grab = none ∧ r1.input_method = none) := by
  have hc := reachable_grab_consistent hr
  refine ⟨?_, ?_, ?_⟩
  · intro hk him
    cases hg : r.keyboard_grab with
    | none => exact hk hg
    | some g =>
      obtain ⟨im, _, a, _⟩ := hc.1 g hg
      rw [him] at a
      cases a
  · intro kbd
    obtain ⟨h1, h2, h3⟩ := should_grab_of_consistent r kbd hc
    cases hk : r.keyboard_grab with
    | none => exact ⟨false, h1 hk⟩
    | some g =>
      cases hv : kbd.virtual_keyboard with
      | none => exact ⟨true, h2 g hk hv⟩
      | some c => exact ⟨_, h3 g c hk hv⟩
  · intro im r1 msgs hd
    obtain ⟨_, h2, h3, _⟩ := on_input_method_destroy_fields r r1 im msgs hd
    exact ⟨h3, h2⟩

/-- C19 at the relay with `im_a` and its grab installed: the destroy handler of the
input method leaves no grab. -/
theorem grab_only_with_input_method_witness :
    Reachable relay_grabbed ∧
    relay_grabbed.on_input_method_destroy im_a_grabbing =
      some (input_method_relay.empty, []) ∧
    ∀ (r1 : input_method_relay) (msgs : List Msg),
      relay_grabbed.on_input_method_destroy im_a_grabbing = some (r1, msgs) →
      r1.keyboard_grab = none ∧ r1.input_method = none :=
  have hr : Reachable relay_grabbed :=
    Reachable.step relay_im_only relay_grabbed (Event.grab_keyboard grab_a) []
      (Reachable.step input_method_relay.empty relay_im_only (Event.input_method_new 50 9) []
        Reachable.empty rfl) rfl
  ⟨hr, by decide, (grab_only_with_input_method relay_grabbed hr).2.2 im_a_grabbing⟩

/-! ## C20: one focus state at a time -/

/-- C20 on the code. After the events `events_pending_and_focused` (text-input
connects, one service connect and two `set_focus` calls) the second text input has
both a pending and a focused surface: the first `set_focus` made the surface pending
on both text inputs, the input method on connecting promoted only the first, and the
second `set_focus` entered the second without clearing its pending surface. The
`assert` of the next `set_focus` then fails. -/
theorem set_focus_assert_fails :
    (run input_method_relay.empty events_pending_and_focused).map (fun p => p.1) =
      some { text_inputs :=
               [wrapper_at 1 (some surface_a) none,
                wrapper_at 2 (some surface_a) (some surface_a)],
             input_method := some im_a, keyboard_grab := none, popup_surfaces := [] } ∧
    run input_method_relay.empty (events_pending_and_focused ++ [Event.set_focus none]) =
      none := by
  decide

/-! ## C21: the guards of `update_geometry` and `map` -/

/-- C21. If no text input is focused, or the popup is not mapped, `update_geometry`
returns the popup as it is (geometry, offset and all) and records nothing, so no damage
is emitted; and `map` with no focused text input returns the popup as it is and records
nothing, so a popup that was not mapped stays unmapped. -/
theorem update_geometry_guard (views : wlr_surface → view_info) (r : input_method_relay)
    (p : popup_surface) :
    ((∀ t ∈ r.text_inputs, t.input.focused_surface = none) →
      popup_surface.update_geometry views r p = (p, [])) ∧
    (p.mapped = false → popup_surface.update_geometry views r p = (p, [])) ∧
    ((∀ t ∈ r.text_inputs, t.input.focused_surface = none) →
      popup_surface.map views r p = (p, []) ∧
      (p.mapped = false → (popup_surface.map views r p).1.mapped = false)) := by
  have hnone : (∀ t ∈ r.text_inputs, t.input.focused_surface = none) →
      r.find_focused_text_input = none :=
    fun h => find_if_eq_none (fun t ht => by simp [h t ht])
  refine ⟨?_, ?_, ?_⟩
  · intro h
    simp [popup_surface.update_geometry, hnone h]
  · intro hm
    unfold popup_surface.update_geometry
    split
    · rfl
    · simp [hm]
  · intro h
    have hmap : popup_surface.map views r p = (p, []) := by
      simp [popup_surface.map, hnone h]
    exact ⟨hmap, fun hm => by rw [hmap]; exact hm⟩

/-- C21 at concrete popups: a mapped popup with no focused text input, an unmapped
popup with a focused text input, and `map` with no focused text input. -/
theorem update_geometry_guard_witness :
    popup_surface.update_geometry (fun _ => plain_view 800 600) relay_one_idle_im
        popup_placed = (popup_placed, []) ∧
    popup_surface.update_geometry (fun _ => plain_view 800 600)
        (relay_cursor 4 { x := 700, y := 100, width := 2, height := 30 })
        popup_unmapped = (popup_unmapped, []) ∧
    popup_surface.map (fun _ => plain_view 800 600) relay_one_idle_im popup_unmapped =
      (popup_unmapped, []) ∧
    (popup_surface.map (fun _ => plain_view 800 600) relay_one_idle_im
      popup_unmapped).1.mapped = false :=
  have hno : ∀ t ∈ relay_one_idle_im.text_inputs, t.input.focused_surface = none := by
    decide
  ⟨(update_geometry_guard (fun _ => plain_view 800 600) relay_one_idle_im popup_placed).1 hno,
   (update_geometry_guard (fun _ => plain_view 800 600)
     (relay_cursor 4 { x := 700, y := 100, width := 2, height := 30 }) popup_unmapped).2.1 rfl,
   ((update_geometry_guard (fun _ => plain_view 800 600) relay_one_idle_im
     popup_unmapped).2.2 hno).1,
   ((update_geometry_guard (fun _ => plain_view 800 600) relay_one_idle_im
     popup_unmapped).2.2 hno).2 rfl⟩

end wf
